import Mathlib

/-!
Verification of the `html_and_tar` polyglot encoder/decoder
(src/lib/html_and_tar/src/lib.rs) against its specification.

Bytes are modelled as `Nat` (real bytes are `< 256`); byte buffers as
`List Nat`.  Rust panics (failed asserts, out-of-bounds slicing,
`copy_from_slice` length mismatches, `unwrap`, arithmetic underflow) are
modelled with `Option` (`none` = panic); recoverable `Result` errors with
`Except TarError`.  All definitions are executable so that concrete runs
can be settled with `decide`.
-/

namespace WasiDoc

/-! ## Byte-buffer primitives -/

/-- `dst[off..][..src.length].copy_from_slice(src)`: replace `src.length`
bytes of `dst` starting at `off`; `none` models the panic when the write
would fall out of bounds. -/
def writeSlice (dst : List Nat) (off : Nat) (src : List Nat) : Option (List Nat) :=
  if off + src.length ≤ dst.length then
    some (dst.take off ++ src ++ dst.drop (off + src.length))
  else none

/-- Whole-field `dst.copy_from_slice(src)`: panics unless lengths agree. -/
def copyFrom (dst : List Nat) (src : List Nat) : Option (List Nat) :=
  if src.length = dst.length then some src else none

/-- Checked `usize` subtraction (`checked_sub`, or the panic of a plain
underflow). -/
def checkedSub (a b : Nat) : Option Nat :=
  if b ≤ a then some (a - b) else none

/-- ASCII digits of `n` in base `base`, most significant first, with
explicit fuel (fuel `n + 1` always suffices, see `digitsAux_fuel_ge`). -/
def digitsAux (base : Nat) : Nat → Nat → List Nat
  | 0, _ => []
  | fuel + 1, n =>
    if n < base then [48 + n] else digitsAux base fuel (n / base) ++ [48 + n % base]

/-- The ASCII digits of `n` in base `base` (what Rust's `format!` with `:o`
resp. plain decimal emits, before padding). -/
def digitsBase (base n : Nat) : List Nat := digitsAux base (n + 1) n

/-- Zero-pad an ASCII digit string on the left to width `w`
(Rust `{:0w...}` formatting: longer strings are kept whole). -/
def fmtPad (w : Nat) (ds : List Nat) : List Nat :=
  List.replicate (w - ds.length) 48 ++ ds

/-- `format!("{n:0wo}")` — octal, zero-padded to width `w`. -/
def fmtOct (w n : Nat) : List Nat := fmtPad w (digitsBase 8 n)

/-- `format!("{n:0w}")` — decimal, zero-padded to width `w`. -/
def fmtDec (w n : Nat) : List Nat := fmtPad w (digitsBase 10 n)

/-- Numeric value of an ASCII octal digit string (used to state what the
formatted fields encode). -/
def octValue (ds : List Nat) : Nat := ds.foldl (fun a d => a * 8 + (d - 48)) 0

/-- One step of `from_str_radix(_, 8)` for an unsigned integer bounded by
`bound` (checked arithmetic: overflow is an error). -/
def parseOctCore (bound : Nat) : List Nat → Nat → Option Nat
  | [], acc => some acc
  | c :: rest, acc =>
    if 48 ≤ c ∧ c ≤ 55 then
      if acc * 8 + (c - 48) < bound then parseOctCore bound rest (acc * 8 + (c - 48))
      else none
    else none

/-- `uN::from_str_radix(s, 8)` on the bytes of `s`: an optional leading `'+'`,
then at least one octal digit, checked against `bound` (`2^64` for `u64`,
`2^16` for `u16`). -/
def fromOctStr (bound : Nat) (s : List Nat) : Option Nat :=
  let s := match s with
    | 43 :: rest => rest
    | other => other
  if s.isEmpty then none else parseOctCore bound s 0

/-- `CStr::from_bytes_until_nul`: the bytes strictly before the first NUL;
`none` when no NUL is present. -/
def cstrUntilNul : List Nat → Option (List Nat)
  | [] => none
  | 0 :: _ => some []
  | c :: rest => (cstrUntilNul rest).map (fun l => c :: l)

/-- A UTF-8 continuation byte. -/
def utf8Cont (c : Nat) : Bool := 128 ≤ c && c ≤ 191

/-- UTF-8 validity of a byte string (`str::from_utf8` succeeding), following
the standard well-formedness table (no overlongs, no surrogates, max
U+10FFFF); continuation bytes are read positionally to keep the equations
small. -/
def isUtf8Fuel : Nat → List Nat → Bool
  | 0, l => l.isEmpty
  | _ + 1, [] => true
  | fuel + 1, c :: rest =>
    if c ≤ 127 then isUtf8Fuel fuel rest
    else if 194 ≤ c && c ≤ 223 then
      decide (1 ≤ rest.length) && utf8Cont (rest.headD 0) &&
        isUtf8Fuel fuel (rest.drop 1)
    else if 224 ≤ c && c ≤ 239 then
      decide (2 ≤ rest.length) &&
        (if c = 224 then decide (160 ≤ rest.headD 0 ∧ rest.headD 0 ≤ 191)
         else if c = 237 then decide (128 ≤ rest.headD 0 ∧ rest.headD 0 ≤ 159)
         else utf8Cont (rest.headD 0)) &&
        utf8Cont (rest.getD 1 0) && isUtf8Fuel fuel (rest.drop 2)
    else if 240 ≤ c && c ≤ 244 then
      decide (3 ≤ rest.length) &&
        (if c = 240 then decide (144 ≤ rest.headD 0 ∧ rest.headD 0 ≤ 191)
         else if c = 244 then decide (128 ≤ rest.headD 0 ∧ rest.headD 0 ≤ 143)
         else utf8Cont (rest.headD 0)) &&
        utf8Cont (rest.getD 1 0) && utf8Cont (rest.getD 2 0) &&
          isUtf8Fuel fuel (rest.drop 3)
    else false

/-- Entry point: every step consumes at least one byte, so `l.length` fuel
always suffices. -/
def isUtf8 (l : List Nat) : Bool := isUtf8Fuel l.length l

/-- `str::from_utf8(l)` as used after `CStr::to_str`: the bytes themselves
when they are valid UTF-8. -/
def toStrOk (l : List Nat) : Option (List Nat) :=
  if isUtf8 l then some l else none

/-- Rust `slice::ends_with`. -/
def endsWith (l pat : List Nat) : Bool :=
  decide (pat.length ≤ l.length ∧ l.drop (l.length - pat.length) = pat)

/-- Contiguous-substring test (`str::contains` for a literal pattern). -/
def hasSub (pat : List Nat) : List Nat → Bool
  | [] => decide (pat = [])
  | c :: rest => decide ((c :: rest).take pat.length = pat) || hasSub pat rest

/-- `u64::next_multiple_of(512)`. -/
def roundUp512 (n : Nat) : Nat := ((n + 511) / 512) * 512

/-! ## Base64 (the `base64` crate's `general_purpose::STANDARD` engine):
standard alphabet, `'='`-padded encoding, canonical-padding decoding. -/

/-- The standard base64 alphabet, as a byte. -/
def b64Char (n : Nat) : Nat :=
  if n < 26 then 65 + n
  else if n < 52 then 97 + (n - 26)
  else if n < 62 then 48 + (n - 52)
  else if n = 62 then 43
  else 47

/-- Inverse alphabet lookup; `'='` and all other bytes are `none`. -/
def b64Inv (c : Nat) : Option Nat :=
  if 65 ≤ c ∧ c ≤ 90 then some (c - 65)
  else if 97 ≤ c ∧ c ≤ 122 then some (26 + (c - 97))
  else if 48 ≤ c ∧ c ≤ 57 then some (52 + (c - 48))
  else if c = 43 then some 62
  else if c = 47 then some 63
  else none

/-- `STANDARD.encode`: 3-byte groups to 4 alphabet bytes, trailing group
padded with `'='` (61). -/
def base64Encode : List Nat → List Nat
  | [] => []
  | [a] => [b64Char (a / 4), b64Char (a % 4 * 16), 61, 61]
  | [a, b] => [b64Char (a / 4), b64Char (a % 4 * 16 + b / 16), b64Char (b % 16 * 4), 61]
  | a :: b :: c :: rest =>
    b64Char (a / 4) :: b64Char (a % 4 * 16 + b / 16) ::
      b64Char (b % 16 * 4 + c / 64) :: b64Char (c % 64) :: base64Encode rest

/-- `STANDARD.decode`: 4-byte groups, requiring canonical padding (any `'='`
only in a final group, trailing bits zero). -/
def base64Decode : List Nat → Option (List Nat)
  | [] => some []
  | c1 :: c2 :: c3 :: c4 :: rest =>
    if c3 = 61 ∧ c4 = 61 ∧ rest = [] then
      match b64Inv c1, b64Inv c2 with
      | some d1, some d2 =>
        if d2 % 16 = 0 then some [d1 * 4 + d2 / 16] else none
      | _, _ => none
    else if c4 = 61 ∧ rest = [] then
      match b64Inv c1, b64Inv c2, b64Inv c3 with
      | some d1, some d2, some d3 =>
        if d3 % 4 = 0 then some [d1 * 4 + d2 / 16, d2 % 16 * 16 + d3 / 4] else none
      | _, _, _ => none
    else
      match b64Inv c1, b64Inv c2, b64Inv c3, b64Inv c4, base64Decode rest with
      | some d1, some d2, some d3, some d4, some tail =>
        some ((d1 * 4 + d2 / 16) :: (d2 % 16 * 16 + d3 / 4) :: (d3 % 4 * 64 + d4) :: tail)
      | _, _, _, _, _ => none
  | _ => none

/-! ## TarHeader (lib.rs:41-170): the fixed-layout 512-byte USTAR record.
The `prefix` field is named `pfix` here. -/

structure TarHeader where
  name : List Nat      -- 100 bytes, offset 0
  mode : List Nat      -- 8, offset 100
  uid : List Nat       -- 8, offset 108
  gid : List Nat       -- 8, offset 116
  size : List Nat      -- 12, offset 124
  mtime : List Nat     -- 12, offset 136
  chksum : List Nat    -- 8, offset 148
  typeflag : Nat       -- 1, offset 156
  linkname : List Nat  -- 100, offset 157
  magic : List Nat     -- 6, offset 257
  version : List Nat   -- 2, offset 263
  uname : List Nat     -- 32, offset 265
  gname : List Nat     -- 32, offset 297
  devmajor : List Nat  -- 8, offset 329
  devminor : List Nat  -- 8, offset 337
  pfix : List Nat      -- 155, offset 345 (the USTAR `prefix` field)
  padding : List Nat   -- 12, offset 500
deriving DecidableEq

/-- `TarHeader::as_bytes` (via `bytemuck::bytes_of` on the `repr(C)` struct):
the 512 bytes in field order. -/
def TarHeader.asBytes (h : TarHeader) : List Nat :=
  h.name ++ h.mode ++ h.uid ++ h.gid ++ h.size ++ h.mtime ++ h.chksum ++
    [h.typeflag] ++ h.linkname ++ h.magic ++ h.version ++ h.uname ++ h.gname ++
    h.devmajor ++ h.devminor ++ h.pfix ++ h.padding

/-- Every field has its USTAR length (automatic for the C struct; an
invariant of the list model). -/
def TarHeader.Sized (h : TarHeader) : Prop :=
  h.name.length = 100 ∧ h.mode.length = 8 ∧ h.uid.length = 8 ∧ h.gid.length = 8 ∧
    h.size.length = 12 ∧ h.mtime.length = 12 ∧ h.chksum.length = 8 ∧
    h.linkname.length = 100 ∧ h.magic.length = 6 ∧ h.version.length = 2 ∧
    h.uname.length = 32 ∧ h.gname.length = 32 ∧ h.devmajor.length = 8 ∧
    h.devminor.length = 8 ∧ h.pfix.length = 155 ∧ h.padding.length = 12

instance (h : TarHeader) : Decidable h.Sized := by
  unfold TarHeader.Sized; infer_instance

/-- `TarHeader::EMPTY`: the all-zero record. -/
def TarHeader.EMPTY : TarHeader where
  name := List.replicate 100 0
  mode := List.replicate 8 0
  uid := List.replicate 8 0
  gid := List.replicate 8 0
  size := List.replicate 12 0
  mtime := List.replicate 12 0
  chksum := List.replicate 8 0
  typeflag := 0
  linkname := List.replicate 100 0
  magic := List.replicate 6 0
  version := List.replicate 2 0
  uname := List.replicate 32 0
  gname := List.replicate 32 0
  devmajor := List.replicate 8 0
  devminor := List.replicate 8 0
  pfix := List.replicate 155 0
  padding := List.replicate 12 0

/-- `TarHeader::assign_from_bytes` / reading a 512-byte block back into the
C-layout struct: split at the USTAR offsets. -/
def TarHeader.ofBytes (d : List Nat) : TarHeader where
  name := (d.drop 0).take 100
  mode := (d.drop 100).take 8
  uid := (d.drop 108).take 8
  gid := (d.drop 116).take 8
  size := (d.drop 124).take 12
  mtime := (d.drop 136).take 12
  chksum := (d.drop 148).take 8
  typeflag := d.getD 156 0
  linkname := (d.drop 157).take 100
  magic := (d.drop 257).take 6
  version := (d.drop 263).take 2
  uname := (d.drop 265).take 32
  gname := (d.drop 297).take 32
  devmajor := (d.drop 329).take 8
  devminor := (d.drop 337).take 8
  pfix := (d.drop 345).take 155
  padding := (d.drop 500).take 12

/-- `TarHeader::assign_permission_encoding_meta` (lib.rs:73-85). -/
def TarHeader.assign_permission_encoding_meta (h : TarHeader) : Option TarHeader := do
  let mode ← copyFrom h.mode [48, 48, 48, 48, 54, 52, 52, 0]        -- "0000644\0"
  let uid ← copyFrom h.uid [48, 49, 55, 55, 55, 55, 54, 0]          -- "0177776\0"
  let gid ← copyFrom h.gid [48, 49, 55, 55, 55, 55, 54, 0]          -- "0177776\0"
  let mtime ← copyFrom h.mtime [49, 52, 55, 48, 55, 48, 52, 49, 55, 55, 52, 0] -- "14707041774\0"
  let magic := [117, 115, 116, 97, 114, 0]                          -- "ustar\0"
  let version := [32, 32]                                           -- "  "
  let uname ← writeSlice h.uname 0 [110, 111, 98, 111, 100, 121, 0] -- "nobody\0"
  let gname ← writeSlice h.gname 0 [110, 111, 98, 111, 100, 121, 0] -- "nobody\0"
  some { h with mode, uid, gid, mtime, magic, version, uname, gname }

/-- A shallow model of `std::time::SystemTime`: whole seconds relative to
`UNIX_EPOCH` (negative = before the epoch) plus subsecond nanoseconds
(`0 ≤ nanos < 10^9`); the instant is `epoch + secs + nanos·10⁻⁹`. -/
structure SysTime where
  secs : Int
  nanos : Nat
deriving DecidableEq

/-- `t.duration_since(UNIX_EPOCH).unwrap_or_default().as_secs()`: the whole
seconds since the epoch, or `0` when `t` precedes the epoch. -/
def SysTime.secsSinceEpochOr0 (t : SysTime) : Nat :=
  if t.secs < 0 then 0 else t.secs.toNat

/-- `EntryAttributes` (lib.rs:212-219); names are the byte strings of
`HtmlAttributeSafeName`s. -/
structure EntryAttributes where
  mtime : Option SysTime
  uname : Option (List Nat)
  gname : Option (List Nat)
  devmajor : Nat     -- u16
  devminor : Nat     -- u16
deriving DecidableEq

/-- `EntryAttributes::default()`. -/
def EntryAttributes.default : EntryAttributes :=
  ⟨none, none, none, 0, 0⟩

/-- `TarHeader::assign_attributes` (lib.rs:87-115): `none` models the
`assert!` failures and out-of-bounds writes. -/
def TarHeader.assign_attributes (h : TarHeader) (extras : EntryAttributes) :
    Option TarHeader := do
  let h ← match extras.mtime with
    | some mt =>
      (copyFrom h.mtime (fmtOct 11 mt.secsSinceEpochOr0 ++ [0])).map
        (fun m => { h with mtime := m })
    | none => pure h
  let h ← match extras.uname with
    | some un =>
      if un.length < h.uname.length - 1 then do
        let u ← writeSlice h.uname 0 un
        let u ← writeSlice u un.length [0]
        pure { h with uname := u }
      else none
    | none => pure h
  let h ← match extras.gname with
    | some gn =>
      if gn.length < h.gname.length - 1 then do
        let g ← writeSlice h.gname 0 gn
        let g ← writeSlice g gn.length [0]
        pure { h with gname := g }
      else none
    | none => pure h
  let h ← (writeSlice h.devmajor 0 (digitsBase 8 extras.devmajor ++ [0])).map
    (fun d => { h with devmajor := d })
  let h ← (writeSlice h.devminor 0 (digitsBase 8 extras.devminor ++ [0])).map
    (fun d => { h with devminor := d })
  some h

/-- `TarHeader::assign_checksum` (lib.rs:117-130): fill `chksum` with ASCII
spaces, sum the 512 bytes as a `u32`, write back `"{acc:06o}\0 "`. -/
def TarHeader.assign_checksum (h : TarHeader) : Option TarHeader := do
  let h1 := { h with chksum := List.replicate h.chksum.length 32 }
  let acc := h1.asBytes.foldl (fun a b => (a + b) % 2 ^ 32) 0
  let ck ← copyFrom h1.chksum (fmtOct 6 acc ++ [0, 32])
  some { h1 with chksum := ck }

/-- `TarHeader::assign_size` (lib.rs:132-136): `"{size:011o}\0"` into the
size field. -/
def TarHeader.assign_size (h : TarHeader) (size : Nat) : Option TarHeader :=
  (copyFrom h.size (fmtOct 11 size ++ [0])).map (fun s => { h with size := s })

/-- `TarHeader::parse_size` (lib.rs:138-149): `0` when the field starts with
NUL, else the octal value of the NUL-terminated prefix (`none` = `Err`). -/
def TarHeader.parse_size (h : TarHeader) : Option Nat :=
  if h.size.headD 0 = 0 then some 0
  else fromOctStr (2 ^ 64) (((cstrUntilNul h.size).bind toStrOk).getD [])

/-- `EntryAttributes::from_header` (lib.rs:223-258). -/
def EntryAttributes.from_header (h : TarHeader) : EntryAttributes where
  mtime := (((cstrUntilNul h.mtime).bind toStrOk).bind (fromOctStr (2 ^ 64))).map
    (fun s => ⟨(s : Int), 0⟩)
  uname := (cstrUntilNul h.uname).bind toStrOk
  gname := (cstrUntilNul h.gname).bind toStrOk
  devmajor := (((cstrUntilNul h.devmajor).bind toStrOk).bind (fromOctStr (2 ^ 16))).getD 0
  devminor := (((cstrUntilNul h.devminor).bind toStrOk).bind (fromOctStr (2 ^ 16))).getD 0

/-- `TarError` (lib.rs:323-330); `Num` drops the wrapped `ParseIntError`. -/
inductive TarError where
  | NameNotAscii
  | NameHasHtmlEscapes
  | NotAStart
  | Num
  | NotEnoughData
  | NotAnExpectedEscape
deriving DecidableEq

/-- `HtmlAttributeSafeName::new` (lib.rs:176-200): ASCII and free of `'"'`. -/
def HtmlAttributeSafeName.new (name : List Nat) : Except TarError (List Nat) :=
  if ¬ name.all (fun b => b < 128) then .error .NameNotAscii
  else if name.any (fun b => b = 34) then .error .NameHasHtmlEscapes
  else .ok name

/-- The validity predicate of `HtmlAttributeSafeName` as a Bool. -/
def validAttributeName (name : List Nat) : Bool :=
  name.all (fun b => b < 128) && name.all (fun b => b ≠ 34)

/-! ## Escape-primitive byte constants (lib.rs:370, 473-480, 537-538, 675) -/

/-- `b"\0<noscript type=none class=\"wah_polyglot_data\" data-a=\""` (55 bytes). -/
def START_NAME : List Nat :=
  [0, 60, 110, 111, 115, 99, 114, 105, 112, 116, 32, 116, 121, 112, 101, 61, 110, 111, 110, 101, 32, 99, 108, 97, 115, 115, 61, 34, 119, 97, 104, 95, 112, 111, 108, 121, 103, 108, 111, 116, 95, 100, 97, 116, 97, 34, 32, 100, 97, 116, 97, 45, 97, 61, 34]

/-- `b"\0</noscript><noscript type=none class=\"wah_polyglot_data\" data-a=\""` (66 bytes). -/
def CONT_NAME : List Nat :=
  [0, 60, 47, 110, 111, 115, 99, 114, 105, 112, 116, 62, 60, 110, 111, 115, 99, 114, 105, 112, 116, 32, 116, 121, 112, 101, 61, 110, 111, 110, 101, 32, 99, 108, 97, 115, 115, 61, 34, 119, 97, 104, 95, 112, 111, 108, 121, 103, 108, 111, 116, 95, 100, 97, 116, 97, 34, 32, 100, 97, 116, 97, 45, 97, 61, 34]

/-- `ID = b"\" data-wahtml_id=\""` (18 bytes). -/
def ID_BYTES : List Nat :=
  [34, 32, 100, 97, 116, 97, 45, 119, 97, 104, 116, 109, 108, 95, 105, 100, 61, 34]

/-- `b"\" data-b=\""` (10 bytes). -/
def ID_END_CONT : List Nat :=
  [34, 32, 100, 97, 116, 97, 45, 98, 61, 34]

/-- `b"\">"` (2 bytes). -/
def DATA_START : List Nat :=
  [34, 62]

/-- `b" data-a=\""` (9 bytes). -/
def DATA_ESCAPE : List Nat :=
  [32, 100, 97, 116, 97, 45, 97, 61, 34]

/-- `" comment=\">"` (11 bytes). -/
def COMMENT_INTRODUCER : List Nat :=
  [32, 99, 111, 109, 109, 101, 110, 116, 61, 34, 62]

/-- `b"</noscript>"` (11 bytes). -/
def NOSCRIPT_CLOSE : List Nat :=
  [60, 47, 110, 111, 115, 99, 114, 105, 112, 116, 62]

/-- `b"<!DOCTYPE html>"` (15 bytes). -/
def DOCTYPE_BYTES : List Nat :=
  [60, 33, 68, 79, 67, 84, 89, 80, 69, 32, 104, 116, 109, 108, 62]

/-- `"<!doctype"` (9 bytes). -/
def DOCTYPE_PAT : List Nat :=
  [60, 33, 100, 111, 99, 116, 121, 112, 101]

/-! ## TarEngine (lib.rs:356-593) -/

/-- `Entry` (lib.rs:203-210); the name is the validated byte string. -/
structure Entry where
  name : List Nat
  data : List Nat
  attributes : EntryAttributes

/-- `External` (lib.rs:272-281). -/
structure External where
  name : List Nat
  realsize : Nat     -- u64
  reference : List Nat
  attributes : EntryAttributes

/-- `InitialEscape` (lib.rs:283-289). -/
structure InitialEscape where
  header : TarHeader
  consumed : Nat
  extra : List Nat

/-- `EscapedData` (lib.rs:291-299). -/
structure EscapedData where
  padding : List Nat
  header : TarHeader
  file : TarHeader
  data : List Nat

/-- `TarEngine` (lib.rs:356-360). -/
structure TarEngine where
  len : Nat          -- u64
  is_escaped : Bool
deriving DecidableEq

/-- `TarEngine::pad_to_fit` (lib.rs:587-592): zero bytes up to the next
multiple of 512. -/
def TarEngine.pad_to_fit (e : TarEngine) : List Nat × TarEngine :=
  let pad := roundUp512 e.len - e.len
  (List.replicate pad 0, { e with len := e.len + pad })

/-- `to_ascii_lowercase`, byte-wise. -/
def lowerByte (b : Nat) : Nat := if 65 ≤ b ∧ b ≤ 90 then b + 32 else b

/-- `String::from_utf8_lossy(head).to_ascii_lowercase().contains("<!doctype")`
(lib.rs:411-413), for the ASCII heads the builder passes (on which
`from_utf8_lossy` is the identity and lowercasing is byte-wise). -/
def containsDoctype (head : List Nat) : Bool :=
  hasSub DOCTYPE_PAT (head.map lowerByte)

/-- `TarEngine::doctype_safe_head` (lib.rs:410-423). -/
def doctype_safe_head (head : List Nat) : List Nat :=
  if containsDoctype head then head else DOCTYPE_BYTES ++ head

/-- `TarEngine::start_of_file` (lib.rs:366-405). -/
def TarEngine.start_of_file (e : TarEngine) (html_head : List Nat)
    (entry_offset : Nat) : Option (InitialEscape × TarEngine) :=
  let consumed := html_head.length
  let head := doctype_safe_head html_head
  -- assert!(html_head.len() < 100 - DATA_ESCAPE.len());
  -- assert_eq!(html_head.last().copied(), Some(b'>'))
  if head.length < 100 - DATA_ESCAPE.length ∧ head.getLast? = some 62 then do
    let all_except_close := head.length - 1
    let t0 := TarHeader.EMPTY
    let n1 ← writeSlice t0.name 1 (head.take all_except_close)
    let n2 ← writeSlice n1 (1 + all_except_close) DATA_ESCAPE
    let t1 := { t0 with name := n2, typeflag := 120 }
    let tail_len ← checkedSub entry_offset consumed   -- .checked_sub().unwrap()
    let extra := fmtDec 10 (COMMENT_INTRODUCER.length + tail_len) ++ COMMENT_INTRODUCER
    let t2 ← t1.assign_size (extra.length + tail_len)
    let t3 ← t2.assign_permission_encoding_meta
    let t4 ← t3.assign_checksum
    let e2 := { e with len := e.len + 512 + extra.length + tail_len }
    some (⟨t4, consumed, extra⟩, e2)
  else none

/-- The extension (`'x'`) header built inside `continue_qualified`
(lib.rs:489-495), as a function of the chosen `start` constant. -/
def mkEscapeExtensionHeader (start : List Nat) : Option TarHeader := do
  let t0 := TarHeader.EMPTY
  let n ← writeSlice t0.name 0 start
  let t1 := { t0 with name := n, typeflag := 120 }
  let t2 ← t1.assign_size 0
  let t3 ← t2.assign_permission_encoding_meta
  let p ← writeSlice t3.pfix (t3.pfix.length - ID_BYTES.length) ID_BYTES
  some { t3 with pfix := p }

/-- The file header built inside `continue_qualified` (lib.rs:498-512),
before the hook and checksum: name, right-aligned `ID_END_CONT`, `pfix`
tail `DATA_START`, size, permission meta.  The two `checkedSub`s model the
panics of `&mut file.name[qualname.len()..][1..]` on an empty slice and of
the `cont_place.len() - ID_END_CONT.len()` underflow (whose wrapped value
makes the subsequent indexing panic). -/
def mkEscapeFileHeader (qualname : List Nat) (dataLen : Nat) : Option TarHeader := do
  let f0 := TarHeader.EMPTY
  let end_start := f0.pfix.length - DATA_START.length
  let n1 ← writeSlice f0.name 0 qualname
  let contLen ← checkedSub (n1.length - qualname.length) 1
  let cont_idx ← checkedSub contLen ID_END_CONT.length
  let n2 ← writeSlice n1 (qualname.length + 1 + cont_idx) ID_END_CONT
  let p1 ← writeSlice f0.pfix end_start DATA_START
  let f1 := { f0 with name := n2, pfix := p1 }
  let f2 ← f1.assign_size dataLen
  f2.assign_permission_encoding_meta

/-- `TarEngine::continue_qualified` (lib.rs:464-529). -/
def TarEngine.continue_qualified (e : TarEngine) (qualname : List Nat)
    (data : List Nat)
    (hook : TarHeader → TarHeader → Option (TarHeader × TarHeader)) :
    Option (EscapedData × TarEngine) := do
  let (padding, e1) := e.pad_to_fit
  let start := if e1.is_escaped then CONT_NAME else START_NAME
  let e2 := { e1 with is_escaped := true }
  let t ← mkEscapeExtensionHeader start
  let e3 := { e2 with len := e2.len + 512 }
  let f ← mkEscapeFileHeader qualname data.length
  let (t1, f1) ← hook t f
  let t2 ← t1.assign_checksum
  let f2 ← f1.assign_checksum
  let e4 := { e3 with len := e3.len + 512 + data.length }
  some (⟨padding, t2, f2, data⟩, e4)

/-- `TarEngine::escaped_base64` (lib.rs:425-438). -/
def TarEngine.escaped_base64 (e : TarEngine) (ent : Entry) :
    Option (EscapedData × TarEngine) :=
  let data := base64Encode ent.data
  e.continue_qualified ent.name data
    (fun t f => (f.assign_attributes ent.attributes).map (fun f1 => (t, f1)))

/-- `TarEngine::escaped_external` (lib.rs:441-462).  The final guard models
`file.prefix[realsize_off..][..11].copy_from_slice(..)` needing an octal
string of exactly 11 bytes. -/
def TarEngine.escaped_external (e : TarEngine) (ext : External) :
    Option (EscapedData × TarEngine) :=
  e.continue_qualified ext.name []
    (fun t f => do
      let realsize_off := 452 - 345
      let f1 ← f.assign_attributes ext.attributes
      let ln ← writeSlice f1.linkname 1 ext.reference
      let f2 := { f1 with linkname := ln, typeflag := 83 }
      let rs := fmtOct 11 ext.realsize
      if rs.length = 11 then
        (writeSlice f2.pfix realsize_off rs).map (fun p => (t, { f2 with pfix := p }))
      else none)

/-- `TarEngine::escaped_eof` (lib.rs:556-585): zero-header pair, with a
trailing `"</noscript>"` as data when still inside an escape. -/
def TarEngine.escaped_eof (e : TarEngine) : EscapedData × TarEngine :=
  let (padding, e2) := e.pad_to_fit
  if e.is_escaped then
    (⟨padding, TarHeader.EMPTY, TarHeader.EMPTY, NOSCRIPT_CLOSE⟩, e2)
  else
    (⟨padding, TarHeader.EMPTY, TarHeader.EMPTY, []⟩, e2)

/-! ## TarDecompiler (lib.rs:595-747) -/

/-- `TarDecompiler` (lib.rs:596-599). -/
structure TarDecompiler where
  len : Nat
deriving DecidableEq

/-- `ParsedInitial` (lib.rs:307-310); ranges as (start, end) pairs. -/
structure ParsedInitial where
  header : Nat × Nat
  continues : Nat × Nat
deriving DecidableEq

/-- `ParsedEscape` (lib.rs:312-316). -/
inductive ParsedEscape where
  | Entry (file : TarHeader) (range : Nat × Nat)
  | EndOfEscapes (html_data : Nat × Nat)
  | Eof (endPos : Nat)
deriving DecidableEq

/-- `ParsedFileData` (lib.rs:318-321). -/
inductive ParsedFileData where
  | Data (bytes : List Nat)
  | Nothing
deriving DecidableEq

/-- `TarDecompiler::pad_to_fit` (lib.rs:744-746). -/
def TarDecompiler.pad_to_fit (d : TarDecompiler) : TarDecompiler :=
  ⟨roundUp512 d.len⟩

/-- `TarDecompiler::start_of_file` (lib.rs:602-634).  The outer `Option`
models the two asserts; `Except` the recoverable errors. -/
def TarDecompiler.start_of_file (d : TarDecompiler) (data : List Nat) :
    Option (Except TarError (ParsedInitial × TarDecompiler)) :=
  if data.length < 512 then none           -- assert!(data.len() >= 512)
  else
    let t := TarHeader.ofBytes (data.take 512)
    if t.typeflag ≠ 120 then none          -- assert_eq!(this.typeflag, b'x')
    else
      match t.parse_size with
      | none => some (.error .Num)
      | some size =>
        let d2 : TarDecompiler := ⟨d.len + 512 + size⟩
        match cstrUntilNul (t.name.drop 1) with
        | none => some (.error .NotAStart)
        | some original_header =>
          let end_of_original_header := original_header.length
          if end_of_original_header ≤ 6 then some (.error .NotAStart)
          else
            match (data.drop 512).findIdx? (fun b => b = 62) with
            | none => some (.error .NotAStart)
            | some continues =>
              some (.ok (⟨(1, end_of_original_header - 6),
                          (512 + continues, d2.len)⟩, d2))

/-- `TarDecompiler::file_data` (lib.rs:652-665); `none` models the
`.unwrap()` on base64 decoding. -/
def TarDecompiler.file_data (header : TarHeader) (data : List Nat) :
    Option ParsedFileData :=
  if header.typeflag = 120 then some .Nothing
  else if header.typeflag = 83 then some .Nothing
  else (base64Decode data).map .Data

/-- `TarDecompiler::next_double_header` (lib.rs:688-742). -/
def TarDecompiler.next_double_header (d : TarDecompiler) (data : List Nat) :
    Option (Except TarError (ParsedEscape × TarDecompiler)) :=
  let d1 := d.pad_to_fit
  if data.length < d1.len then some (.error .NotEnoughData)
  else
    let rest := data.drop d1.len
    if rest.length < 512 then some (.error .NotEnoughData)
    else
      let ext := TarHeader.ofBytes (rest.take 512)
      if endsWith ext.pfix NOSCRIPT_CLOSE then
        match ext.parse_size with
        | none => none                      -- .unwrap()
        | some size =>
          let start_of_data := d1.len + 512
          let d2 : TarDecompiler := ⟨start_of_data + size⟩
          some (.ok (.EndOfEscapes (start_of_data, d2.len), d2))
      else if rest.length < 1024 then some (.error .NotEnoughData)
      else
        let file := TarHeader.ofBytes ((rest.drop 512).take 512)
        match file.parse_size with
        | none => none                      -- .unwrap()
        | some size =>
          if ext.asBytes = TarHeader.EMPTY.asBytes ∧
              file.asBytes = TarHeader.EMPTY.asBytes then
            let d2 : TarDecompiler := ⟨d1.len + 1024⟩
            some (.ok (.Eof d2.len, d2))
          else
            let file_start := d1.len + 1024
            let d2 : TarDecompiler := ⟨file_start + size⟩
            if ext.typeflag ≠ 120 then some (.error .NotAnExpectedEscape)
            else
              match ext.parse_size with
              | none => some (.error .Num)
              | some s0 =>
                if s0 ≠ 0 then some (.error .NotAnExpectedEscape)
                else some (.ok (.Entry file (file_start, d2.len), d2))

/-- `TarDecompiler::next_escape` (lib.rs:667-669). -/
def TarDecompiler.next_escape (d : TarDecompiler) (data : List Nat) :
    Option (Except TarError (ParsedEscape × TarDecompiler)) :=
  d.next_double_header data

/-- `TarDecompiler::continue_escape` (lib.rs:671-686): after an `Eof`,
verify and skip a literal `"</noscript>"` (`data[end..][..11]` panics when
out of bounds). -/
def TarDecompiler.continue_escape (d : TarDecompiler) (data : List Nat) :
    Option (Except TarError (ParsedEscape × TarDecompiler)) :=
  match d.next_double_header data with
  | none => none
  | some (.error e) => some (.error e)
  | some (.ok (esc, d2)) =>
    match esc with
    | .Eof endPos =>
      if endPos + NOSCRIPT_CLOSE.length ≤ data.length then
        if (data.drop endPos).take NOSCRIPT_CLOSE.length = NOSCRIPT_CLOSE then
          some (.ok (.Eof (endPos + NOSCRIPT_CLOSE.length), d2))
        else some (.error .NotAnExpectedEscape)
      else none
    | other => some (.ok (other, d2))

/-! ## Drivers: the byte streams the builder assembles from the engine's
outputs, and the decode loop the decompiler's callers run. -/

/-- The per-entry byte stream the builder pushes for one `EscapedData`
(tar.rs:51-56, create.rs): padding, both headers, payload. -/
def EscapedData.bytes (ed : EscapedData) : List Nat :=
  ed.padding ++ ed.header.asBytes ++ ed.file.asBytes ++ ed.data

/-- Encode a sequence of (name, data) entries in order with
`escaped_base64` (default attributes), concatenating the pushed bytes. -/
def encodeEntriesFrom (e : TarEngine) :
    List (List Nat × List Nat) → Option (List Nat)
  | [] => some []
  | (n, dta) :: rest => do
    let (ed, e2) ← e.escaped_base64 ⟨n, dta, EntryAttributes.default⟩
    let tail ← encodeEntriesFrom e2 rest
    some (ed.bytes ++ tail)

/-- Encoding from a fresh engine. -/
def encodeEntries (es : List (List Nat × List Nat)) : Option (List Nat) :=
  encodeEntriesFrom ⟨0, false⟩ es

/-- Decode `k` entries: classify with `next_escape` (first step) /
`continue_escape` (subsequent steps), read each entry's name the way the
decompiler's callers do (`CStr::from_bytes_until_nul(&file.name)`,
uncreate.rs:27), and decode the payload range with `file_data`. -/
def decodeEntriesSteps (d : TarDecompiler) (data : List Nat) (first : Bool) :
    Nat → Option (List (List Nat × List Nat))
  | 0 => some []
  | k + 1 =>
    match (if first then d.next_escape data else d.continue_escape data) with
    | some (.ok (.Entry file (s, t), d2)) =>
      match cstrUntilNul file.name,
            TarDecompiler.file_data file ((data.drop s).take (t - s)) with
      | some nm, some (.Data bytes) =>
        (decodeEntriesSteps d2 data false k).map (fun r => (nm, bytes) :: r)
      | _, _ => none
    | _ => none

/-- One emission of the build loop: an embedded entry or an external
reference. -/
inductive TarItem where
  | entry (ent : Entry)
  | external (ext : External)

/-- Emit one item (tar.rs:44-49). -/
def TarItem.emit (it : TarItem) (e : TarEngine) : Option (EscapedData × TarEngine) :=
  match it with
  | .entry ent => e.escaped_base64 ent
  | .external ext => e.escaped_external ext

/-- Emit a sequence of items, returning the concatenated pushed bytes and
the artifact offsets of every emitted 512-byte header; `pos` is the byte
offset at which this part of the artifact starts. -/
def emitItems (e : TarEngine) (pos : Nat) :
    List TarItem → Option (List Nat × List Nat × TarEngine)
  | [] => some ([], [], e)
  | it :: rest => do
    let (ed, e2) ← it.emit e
    let here := pos + ed.padding.length
    let (s, offs, e3) ← emitItems e2 (here + 1024 + ed.data.length) rest
    some (ed.bytes ++ s, here :: (here + 512) :: offs, e3)

/-- The artifact assembled as the builder does (tar.rs:31-65): the initial
header and its `extra`, the raw HTML bytes up to the insertion point
(`rawTail`, the builder's `source[consumed..insert.start]`), every item's
`(padding, header, file, data)`, then `escaped_eof`.  Returns the bytes
together with the offsets of all 512-byte headers. -/
def buildArtifact (html_head : List Nat) (entry_offset : Nat)
    (rawTail : List Nat) (items : List TarItem) :
    Option (List Nat × List Nat) := do
  let (init, e1) ← TarEngine.start_of_file ⟨0, false⟩ html_head entry_offset
  let pre := init.header.asBytes ++ init.extra ++ rawTail
  let (body, offs, e2) ← emitItems e1 pre.length items
  let (eofd, _e3) := e2.escaped_eof
  let eofPos := pre.length + body.length + eofd.padding.length
  some (pre ++ body ++ eofd.bytes, 0 :: offs ++ [eofPos, eofPos + 512])

/-! ## Remaining model-level definitions: predicates, witness inputs -/

/-- All bytes of the record are real bytes. -/
def TarHeader.Bounded (h : TarHeader) : Prop := ∀ b ∈ h.asBytes, b < 256

instance (h : TarHeader) : Decidable h.Bounded := by
  unfold TarHeader.Bounded; infer_instance

/-- The sum of all 512 bytes of the record with `chksum` treated as eight
ASCII spaces — the value the tar checksum encodes. -/
def spacedSum (h : TarHeader) : Nat :=
  ({ h with chksum := List.replicate 8 32 } : TarHeader).asBytes.sum

/-- The concrete HTML head `"<!DOCTYPE html><html>"` used in concrete
runs. -/
def cHead : List Nat :=
  [60, 33, 68, 79, 67, 84, 89, 80, 69, 32, 104, 116, 109, 108, 62, 60,
   104, 116, 109, 108, 62]

deriving instance DecidableEq for Except

/-- The encoder's initial block for `cHead` with `entry_offset = 26`,
followed by the 5 raw tail bytes `"ABCDE"` the builder would copy. -/
def c7Block : List Nat :=
  (((TarEngine.start_of_file ⟨0, false⟩ cHead 26).map
    (fun p => p.1.header.asBytes ++ p.1.extra)).getD []) ++ [65, 66, 67, 68, 69]

/-- A double header whose extension has `typeflag = 'x'` but an unparseable
size field (`"z"`), followed by an all-zero file header. -/
def c8Bad : List Nat :=
  List.replicate 124 0 ++ [122] ++ List.replicate 31 0 ++ [120] ++
    List.replicate 355 0 ++ List.replicate 512 0

def c8W : List Nat := List.replicate 1024 0 ++ NOSCRIPT_CLOSE

def c10Name : List Nat := List.replicate 90 97

def c2Tail : List Nat := [60, 104, 101, 97, 100]

def c2Items : List TarItem := [TarItem.entry ⟨[97], [5], EntryAttributes.default⟩]

def c9A : List Entry := [⟨[97], [5], EntryAttributes.default⟩]

def c9B : List Entry := [⟨[98], [7], EntryAttributes.default⟩]

def extOk (t : TarHeader) : Prop :=
  t.typeflag = 120 ∧ t.parse_size = some 0 ∧
    endsWith t.pfix NOSCRIPT_CLOSE = false ∧ t.Sized

instance (t : TarHeader) : Decidable (extOk t) := by
  unfold extOk
  infer_instance

/-- Octal accumulation (the value `from_str_radix` computes), starting from
`acc`. -/
def octValFrom (acc : Nat) (ds : List Nat) : Nat :=
  ds.foldl (fun a d => a * 8 + (d - 48)) acc

/-! ## Supporting lemmas: digit formatting and octal parsing -/

theorem digitsAux_ne_nil (base fuel n : Nat) (hf : 0 < fuel) :
    digitsAux base fuel n ≠ [] := by
  match fuel, hf with
  | f + 1, _ =>
    unfold digitsAux
    split <;> simp

theorem digitsAux_bounds (base : Nat) (hb : 1 ≤ base) :
    ∀ fuel n, ∀ d ∈ digitsAux base fuel n, 48 ≤ d ∧ d < 48 + base
  | 0, n => by simp [digitsAux]
  | fuel + 1, n => by
    unfold digitsAux
    split
    next h => intro d hd; simp at hd; omega
    next h =>
      intro d hd
      rw [List.mem_append] at hd
      rcases hd with h1 | h2
      · exact digitsAux_bounds base hb fuel (n / base) d h1
      · have : n % base < base := Nat.mod_lt _ (by omega)
        simp at h2
        omega

theorem digitsAux_length (base : Nat) (hb : 2 ≤ base) :
    ∀ fuel n k, n < base ^ k → 0 < k → (digitsAux base fuel n).length ≤ k
  | 0, n, k, _, _ => by simp [digitsAux]
  | fuel + 1, n, k, hk, hk0 => by
    unfold digitsAux
    split
    next h => simpa using hk0
    next h =>
      have hk2 : 2 ≤ k := by
        rcases Nat.lt_or_ge k 2 with hlt | hge
        · have hk1 : k = 1 := by omega
          subst hk1
          simp at hk
          omega
        · exact hge
      have hdiv : n / base < base ^ (k - 1) := by
        apply Nat.div_lt_of_lt_mul
        calc n < base ^ k := hk
          _ = base * base ^ (k - 1) := by
            rw [← pow_succ']
            congr 1
            omega
      have := digitsAux_length base hb fuel (n / base) (k - 1) hdiv (by omega)
      simp only [List.length_append, List.length_cons, List.length_nil]
      omega

theorem digitsBase_length_le (base n k : Nat) (hb : 2 ≤ base) (hk : 0 < k)
    (h : n < base ^ k) : (digitsBase base n).length ≤ k :=
  digitsAux_length base hb (n + 1) n k h hk

theorem digitsBase_bounds (base n : Nat) (hb : 1 ≤ base) :
    ∀ d ∈ digitsBase base n, 48 ≤ d ∧ d < 48 + base :=
  digitsAux_bounds base hb (n + 1) n

theorem fmtPad_length (w : Nat) (ds : List Nat) (h : ds.length ≤ w) :
    (fmtPad w ds).length = w := by
  simp [fmtPad]
  omega

theorem fmtOct_length (w n : Nat) (hw : 0 < w) (h : n < 8 ^ w) :
    (fmtOct w n).length = w :=
  fmtPad_length w _ (digitsBase_length_le 8 n w (by norm_num) hw h)

theorem fmtDec_length (w n : Nat) (hw : 0 < w) (h : n < 10 ^ w) :
    (fmtDec w n).length = w :=
  fmtPad_length w _ (digitsBase_length_le 10 n w (by norm_num) hw h)

theorem octValFrom_cons (acc c : Nat) (t : List Nat) :
    octValFrom acc (c :: t) = octValFrom (acc * 8 + (c - 48)) t := rfl

theorem octValFrom_append (acc : Nat) (a b : List Nat) :
    octValFrom acc (a ++ b) = octValFrom (octValFrom acc a) b := by
  simp [octValFrom, List.foldl_append]

theorem digitsAux8_val : ∀ fuel n, n < 8 ^ fuel →
    octValFrom 0 (digitsAux 8 fuel n) = n
  | 0, n, h => by
    have : n = 0 := by simpa using h
    subst this
    rfl
  | fuel + 1, n, h => by
    unfold digitsAux
    split
    next hlt =>
      simp only [octValFrom, List.foldl_cons, List.foldl_nil]
      omega
    next hge =>
      have hdiv : n / 8 < 8 ^ fuel := by
        apply Nat.div_lt_of_lt_mul
        calc n < 8 ^ (fuel + 1) := h
          _ = 8 * 8 ^ fuel := by ring
      rw [octValFrom_append, digitsAux8_val fuel (n / 8) hdiv, octValFrom_cons]
      simp only [octValFrom, List.foldl_cons, List.foldl_nil]
      omega

theorem digitsBase8_val (n : Nat) : octValFrom 0 (digitsBase 8 n) = n := by
  apply digitsAux8_val
  calc n < 8 ^ n := Nat.lt_pow_self (by norm_num) n
    _ ≤ 8 ^ (n + 1) := Nat.pow_le_pow_right (by norm_num) (by omega)

theorem octValFrom_zero_replicate48 (k : Nat) (ds : List Nat) :
    octValFrom 0 (List.replicate k 48 ++ ds) = octValFrom 0 ds := by
  induction k with
  | zero => rfl
  | succ m ih => simpa [List.replicate_succ, octValFrom_cons] using ih

theorem fmtOct_val (w n : Nat) : octValFrom 0 (fmtOct w n) = n := by
  rw [fmtOct, fmtPad, octValFrom_zero_replicate48, digitsBase8_val]

theorem octValFrom_le (acc : Nat) (ds : List Nat) :
    acc ≤ octValFrom acc ds := by
  induction ds generalizing acc with
  | nil => simp [octValFrom]
  | cons c t ih =>
    rw [octValFrom_cons]
    calc acc ≤ acc * 8 + (c - 48) := by omega
      _ ≤ _ := ih _

theorem parseOctCore_some (bound : Nat) (ds : List Nat) (acc : Nat)
    (hd : ∀ d ∈ ds, 48 ≤ d ∧ d ≤ 55) (hb : octValFrom acc ds < bound) :
    parseOctCore bound ds acc = some (octValFrom acc ds) := by
  induction ds generalizing acc with
  | nil => simp [parseOctCore, octValFrom]
  | cons c t ih =>
    have hc := hd c (by simp)
    have hmono : acc * 8 + (c - 48) ≤ octValFrom acc (c :: t) := by
      rw [octValFrom_cons]
      exact octValFrom_le _ _
    rw [parseOctCore, if_pos ⟨hc.1, hc.2⟩, if_pos (by omega)]
    rw [octValFrom_cons] at hb ⊢
    exact ih _ (fun d hdm => hd d (by simp [hdm])) hb

theorem fromOctStr_fmtOct (bound w n : Nat) (hw : 0 < w) (hn : n < 8 ^ w)
    (hb : n < bound) : fromOctStr bound (fmtOct w n) = some n := by
  have hdig : ∀ d ∈ fmtOct w n, 48 ≤ d ∧ d ≤ 55 := by
    intro d hd
    rw [fmtOct, fmtPad, List.mem_append] at hd
    rcases hd with h1 | h2
    · have := List.eq_of_mem_replicate h1
      omega
    · have := digitsBase_bounds 8 n (by norm_num) d h2
      omega
  have hlen : (fmtOct w n).length = w := fmtOct_length w n hw hn
  have hval : octValFrom 0 (fmtOct w n) = n := fmtOct_val w n
  obtain ⟨c, cs, hcons⟩ : ∃ c cs, fmtOct w n = c :: cs := by
    match hgen : fmtOct w n with
    | [] => rw [hgen] at hlen; simp at hlen; omega
    | c :: cs => exact ⟨c, cs, rfl⟩
  have hc : 48 ≤ c := (hdig c (by rw [hcons]; simp)).1
  rw [hcons] at hval ⊢
  unfold fromOctStr
  split
  next heq =>
    -- first byte would be '+' (43), impossible: all bytes are octal digits
    injection heq with h1 _
    omega
  next =>
    rw [if_neg (by simp)]
    rw [← hval]
    refine parseOctCore_some bound _ 0 ?_ (by rw [hval]; exact hb)
    intro d hd
    exact hdig d (by rw [hcons]; exact hd)

/-! ## Supporting lemmas: C strings, UTF-8, slices, sums -/

theorem cstrUntilNul_cons_of_ne (x : Nat) (t : List Nat) (hx : x ≠ 0) :
    cstrUntilNul (x :: t) = (cstrUntilNul t).map (fun l => x :: l) := by
  match x, hx with
  | x' + 1, _ => rfl

theorem cstrUntilNul_append (xs ys : List Nat) (h : ∀ x ∈ xs, x ≠ 0) :
    cstrUntilNul (xs ++ 0 :: ys) = some xs := by
  induction xs with
  | nil => rfl
  | cons x t ih =>
    rw [List.cons_append, cstrUntilNul_cons_of_ne x _ (h x (by simp)),
      ih (fun b hb => h b (by simp [hb]))]
    rfl

theorem isUtf8_of_ascii (l : List Nat) (h : ∀ b ∈ l, b < 128) :
    isUtf8 l = true := by
  unfold isUtf8
  induction l with
  | nil => rfl
  | cons c t ih =>
    have hc := h c (List.mem_cons_self c t)
    have ht := ih (fun b hb => h b (List.mem_cons_of_mem c hb))
    show isUtf8Fuel (t.length + 1) (c :: t) = true
    unfold isUtf8Fuel
    rw [if_pos (by omega)]
    exact ht

theorem toStrOk_of_ascii (l : List Nat) (h : ∀ b ∈ l, b < 128) :
    toStrOk l = some l := by
  simp [toStrOk, isUtf8_of_ascii l h]

theorem writeSlice_some (dst : List Nat) (off : Nat) (src : List Nat)
    (h : off + src.length ≤ dst.length) :
    writeSlice dst off src =
      some (dst.take off ++ src ++ dst.drop (off + src.length)) := by
  unfold writeSlice
  rw [if_pos h]

theorem writeSlice_length (dst : List Nat) (off : Nat) (src out : List Nat)
    (h : writeSlice dst off src = some out) : out.length = dst.length := by
  unfold writeSlice at h
  split at h
  next hle =>
    cases h
    simp only [List.length_append, List.length_take, List.length_drop]
    omega
  next => exact absurd h (by simp)

theorem copyFrom_length (dst src out : List Nat)
    (h : copyFrom dst src = some out) : out.length = dst.length := by
  unfold copyFrom at h
  split at h
  next heq => cases h; exact heq
  next => exact absurd h (by simp)

theorem copyFrom_some (dst src : List Nat) (h : src.length = dst.length) :
    copyFrom dst src = some src := by
  simp [copyFrom, h]

theorem foldl_mod_eq_add_sum (l : List Nat) (acc : Nat)
    (h : acc + l.sum < 2 ^ 32) :
    l.foldl (fun a b => (a + b) % 2 ^ 32) acc = acc + l.sum := by
  induction l generalizing acc with
  | nil => simp
  | cons x t ih =>
    simp only [List.foldl_cons, List.sum_cons] at *
    rw [Nat.mod_eq_of_lt (by omega), ih _ (by omega)]
    omega

theorem sum_le_of_bounds (l : List Nat) (h : ∀ b ∈ l, b < 256) :
    l.sum ≤ l.length * 255 := by
  induction l with
  | nil => simp
  | cons a t ih =>
    simp only [List.sum_cons, List.length_cons]
    have h1 := h a (by simp)
    have h2 := ih (fun b hb => h b (by simp [hb]))
    nlinarith

/-! ## Supporting lemmas: base64 round trip -/

theorem b64Inv_b64Char : ∀ n, n < 64 → b64Inv (b64Char n) = some n := by decide

theorem b64Char_ne_61 : ∀ n, n < 64 → b64Char n ≠ 61 := by decide

theorem base64Encode_length : ∀ l : List Nat,
    (base64Encode l).length = 4 * ((l.length + 2) / 3)
  | [] => rfl
  | [_] => by simp [base64Encode]
  | [_, _] => by simp [base64Encode]
  | a :: b :: c :: rest => by
    show (base64Encode rest).length + 4 = _
    rw [base64Encode_length rest]
    simp only [List.length_cons]
    omega

theorem base64_roundtrip : ∀ l : List Nat, (∀ b ∈ l, b < 256) →
    base64Decode (base64Encode l) = some l
  | [], _ => rfl
  | [a], h => by
    have ha : a < 256 := h a (by simp)
    show base64Decode [b64Char (a / 4), b64Char (a % 4 * 16), 61, 61] = some [a]
    rw [base64Decode]
    rw [if_pos ⟨rfl, rfl, rfl⟩]
    rw [b64Inv_b64Char (a / 4) (by omega), b64Inv_b64Char (a % 4 * 16) (by omega)]
    simp only []
    rw [if_pos (by omega)]
    have e1 : a / 4 * 4 + a % 4 * 16 / 16 = a := by omega
    rw [e1]
  | [a, b], h => by
    have ha : a < 256 := h a (by simp)
    have hb : b < 256 := h b (by simp)
    show base64Decode [b64Char (a / 4), b64Char (a % 4 * 16 + b / 16),
      b64Char (b % 16 * 4), 61] = some [a, b]
    rw [base64Decode]
    rw [if_neg (by
      intro hcon
      exact b64Char_ne_61 (b % 16 * 4) (by omega) hcon.1)]
    rw [if_pos ⟨rfl, rfl⟩]
    rw [b64Inv_b64Char (a / 4) (by omega), b64Inv_b64Char (a % 4 * 16 + b / 16) (by omega),
      b64Inv_b64Char (b % 16 * 4) (by omega)]
    simp only []
    rw [if_pos (by omega)]
    have e1 : a / 4 * 4 + (a % 4 * 16 + b / 16) / 16 = a := by omega
    have e2 : (a % 4 * 16 + b / 16) % 16 * 16 + b % 16 * 4 / 4 = b := by omega
    rw [e1, e2]
  | a :: b :: c :: rest, h => by
    have ha : a < 256 := h a (by simp)
    have hb : b < 256 := h b (by simp)
    have hc : c < 256 := h c (by simp)
    have ih := base64_roundtrip rest (fun x hx => h x (by simp [hx]))
    show base64Decode (b64Char (a / 4) :: b64Char (a % 4 * 16 + b / 16) ::
      b64Char (b % 16 * 4 + c / 64) :: b64Char (c % 64) :: base64Encode rest) =
      some (a :: b :: c :: rest)
    rw [base64Decode]
    rw [if_neg (by
      intro hcon
      exact b64Char_ne_61 (b % 16 * 4 + c / 64) (by omega) hcon.1)]
    rw [if_neg (by
      intro hcon
      exact b64Char_ne_61 (c % 64) (by omega) hcon.1)]
    rw [b64Inv_b64Char (a / 4) (by omega), b64Inv_b64Char (a % 4 * 16 + b / 16) (by omega),
      b64Inv_b64Char (b % 16 * 4 + c / 64) (by omega), b64Inv_b64Char (c % 64) (by omega),
      ih]
    simp only []
    have e1 : a / 4 * 4 + (a % 4 * 16 + b / 16) / 16 = a := by omega
    have e2 : (a % 4 * 16 + b / 16) % 16 * 16 + (b % 16 * 4 + c / 64) / 4 = b := by omega
    have e3 : (b % 16 * 4 + c / 64) % 4 * 64 + c % 64 = c := by omega
    rw [e1, e2, e3]

/-! ## Supporting lemmas: TarHeader structure -/

theorem take_len_append (a b : List Nat) (n : Nat) (h : a.length = n) :
    (a ++ b).take n = a := by
  subst h
  exact List.take_left a b

theorem drop_len_append (a b : List Nat) (n : Nat) (h : a.length = n) :
    (a ++ b).drop n = b := by
  subst h
  exact List.drop_left a b

theorem TarHeader.asBytes_length (h : TarHeader) (hs : h.Sized) :
    h.asBytes.length = 512 := by
  obtain ⟨e1, e2, e3, e4, e5, e6, e7, e8, e9, e10, e11, e12, e13, e14, e15, e16⟩ := hs
  simp [TarHeader.asBytes, e1, e2, e3, e4, e5, e6, e7, e8, e9, e10, e11, e12,
    e13, e14, e15, e16]

theorem EMPTY_Sized : TarHeader.EMPTY.Sized := by decide

theorem TarHeader.extEq (x y : TarHeader) (h1 : x.name = y.name)
    (h2 : x.mode = y.mode) (h3 : x.uid = y.uid) (h4 : x.gid = y.gid)
    (h5 : x.size = y.size) (h6 : x.mtime = y.mtime) (h7 : x.chksum = y.chksum)
    (h8 : x.typeflag = y.typeflag) (h9 : x.linkname = y.linkname)
    (h10 : x.magic = y.magic) (h11 : x.version = y.version)
    (h12 : x.uname = y.uname) (h13 : x.gname = y.gname)
    (h14 : x.devmajor = y.devmajor) (h15 : x.devminor = y.devminor)
    (h16 : x.pfix = y.pfix) (h17 : x.padding = y.padding) : x = y := by
  cases x
  cases y
  simp only at h1 h2 h3 h4 h5 h6 h7 h8 h9 h10 h11 h12 h13 h14 h15 h16 h17
  subst h1 h2 h3 h4 h5 h6 h7 h8 h9 h10 h11 h12 h13 h14 h15 h16 h17
  rfl

theorem ofBytes_name (d : List Nat) : (TarHeader.ofBytes d).name = (d.drop 0).take 100 := rfl
theorem ofBytes_mode (d : List Nat) : (TarHeader.ofBytes d).mode = (d.drop 100).take 8 := rfl
theorem ofBytes_uid (d : List Nat) : (TarHeader.ofBytes d).uid = (d.drop 108).take 8 := rfl
theorem ofBytes_gid (d : List Nat) : (TarHeader.ofBytes d).gid = (d.drop 116).take 8 := rfl
theorem ofBytes_size (d : List Nat) : (TarHeader.ofBytes d).size = (d.drop 124).take 12 := rfl
theorem ofBytes_mtime (d : List Nat) : (TarHeader.ofBytes d).mtime = (d.drop 136).take 12 := rfl
theorem ofBytes_chksum (d : List Nat) : (TarHeader.ofBytes d).chksum = (d.drop 148).take 8 := rfl
theorem ofBytes_typeflag (d : List Nat) : (TarHeader.ofBytes d).typeflag = d.getD 156 0 := rfl
theorem ofBytes_linkname (d : List Nat) : (TarHeader.ofBytes d).linkname = (d.drop 157).take 100 := rfl
theorem ofBytes_magic (d : List Nat) : (TarHeader.ofBytes d).magic = (d.drop 257).take 6 := rfl
theorem ofBytes_version (d : List Nat) : (TarHeader.ofBytes d).version = (d.drop 263).take 2 := rfl
theorem ofBytes_uname (d : List Nat) : (TarHeader.ofBytes d).uname = (d.drop 265).take 32 := rfl
theorem ofBytes_gname (d : List Nat) : (TarHeader.ofBytes d).gname = (d.drop 297).take 32 := rfl
theorem ofBytes_devmajor (d : List Nat) : (TarHeader.ofBytes d).devmajor = (d.drop 329).take 8 := rfl
theorem ofBytes_devminor (d : List Nat) : (TarHeader.ofBytes d).devminor = (d.drop 337).take 8 := rfl
theorem ofBytes_pfix (d : List Nat) : (TarHeader.ofBytes d).pfix = (d.drop 345).take 155 := rfl
theorem ofBytes_padding (d : List Nat) : (TarHeader.ofBytes d).padding = (d.drop 500).take 12 := rfl

theorem TarHeader.ofBytes_asBytes (h : TarHeader) (hs : h.Sized) :
    TarHeader.ofBytes h.asBytes = h := by
  obtain ⟨e1, e2, e3, e4, e5, e6, e7, e8, e9, e10, e11, e12, e13, e14, e15, e16⟩ := hs
  have assoc : h.asBytes = h.name ++ (h.mode ++ (h.uid ++ (h.gid ++ (h.size ++
      (h.mtime ++ (h.chksum ++ ([h.typeflag] ++ (h.linkname ++ (h.magic ++
      (h.version ++ (h.uname ++ (h.gname ++ (h.devmajor ++ (h.devminor ++
      (h.pfix ++ h.padding))))))))))))))) := by
    simp [TarHeader.asBytes, List.append_assoc]
  have d100 : h.asBytes.drop 100 = h.mode ++ (h.uid ++ (h.gid ++ (h.size ++
      (h.mtime ++ (h.chksum ++ ([h.typeflag] ++ (h.linkname ++ (h.magic ++
      (h.version ++ (h.uname ++ (h.gname ++ (h.devmajor ++ (h.devminor ++
      (h.pfix ++ h.padding)))))))))))))) := by
    rw [assoc]; exact drop_len_append _ _ _ e1
  have d108 : h.asBytes.drop 108 = h.uid ++ (h.gid ++ (h.size ++
      (h.mtime ++ (h.chksum ++ ([h.typeflag] ++ (h.linkname ++ (h.magic ++
      (h.version ++ (h.uname ++ (h.gname ++ (h.devmajor ++ (h.devminor ++
      (h.pfix ++ h.padding))))))))))))) := by
    rw [show (108 : Nat) = 100 + 8 from rfl, ← List.drop_drop, d100]
    exact drop_len_append _ _ _ e2
  have d116 : h.asBytes.drop 116 = h.gid ++ (h.size ++
      (h.mtime ++ (h.chksum ++ ([h.typeflag] ++ (h.linkname ++ (h.magic ++
      (h.version ++ (h.uname ++ (h.gname ++ (h.devmajor ++ (h.devminor ++
      (h.pfix ++ h.padding)))))))))))) := by
    rw [show (116 : Nat) = 108 + 8 from rfl, ← List.drop_drop, d108]
    exact drop_len_append _ _ _ e3
  have d124 : h.asBytes.drop 124 = h.size ++
      (h.mtime ++ (h.chksum ++ ([h.typeflag] ++ (h.linkname ++ (h.magic ++
      (h.version ++ (h.uname ++ (h.gname ++ (h.devmajor ++ (h.devminor ++
      (h.pfix ++ h.padding))))))))))) := by
    rw [show (124 : Nat) = 116 + 8 from rfl, ← List.drop_drop, d116]
    exact drop_len_append _ _ _ e4
  have d136 : h.asBytes.drop 136 =
      h.mtime ++ (h.chksum ++ ([h.typeflag] ++ (h.linkname ++ (h.magic ++
      (h.version ++ (h.uname ++ (h.gname ++ (h.devmajor ++ (h.devminor ++
      (h.pfix ++ h.padding)))))))))) := by
    rw [show (136 : Nat) = 124 + 12 from rfl, ← List.drop_drop, d124]
    exact drop_len_append _ _ _ e5
  have d148 : h.asBytes.drop 148 =
      h.chksum ++ ([h.typeflag] ++ (h.linkname ++ (h.magic ++
      (h.version ++ (h.uname ++ (h.gname ++ (h.devmajor ++ (h.devminor ++
      (h.pfix ++ h.padding))))))))) := by
    rw [show (148 : Nat) = 136 + 12 from rfl, ← List.drop_drop, d136]
    exact drop_len_append _ _ _ e6
  have d156 : h.asBytes.drop 156 =
      [h.typeflag] ++ (h.linkname ++ (h.magic ++
      (h.version ++ (h.uname ++ (h.gname ++ (h.devmajor ++ (h.devminor ++
      (h.pfix ++ h.padding)))))))) := by
    rw [show (156 : Nat) = 148 + 8 from rfl, ← List.drop_drop, d148]
    exact drop_len_append _ _ _ e7
  have d157 : h.asBytes.drop 157 =
      h.linkname ++ (h.magic ++
      (h.version ++ (h.uname ++ (h.gname ++ (h.devmajor ++ (h.devminor ++
      (h.pfix ++ h.padding))))))) := by
    rw [show (157 : Nat) = 156 + 1 from rfl, ← List.drop_drop, d156]
    rfl
  have d257 : h.asBytes.drop 257 =
      h.magic ++ (h.version ++ (h.uname ++ (h.gname ++ (h.devmajor ++
      (h.devminor ++ (h.pfix ++ h.padding)))))) := by
    rw [show (257 : Nat) = 157 + 100 from rfl, ← List.drop_drop, d157]
    exact drop_len_append _ _ _ e8
  have d263 : h.asBytes.drop 263 =
      h.version ++ (h.uname ++ (h.gname ++ (h.devmajor ++
      (h.devminor ++ (h.pfix ++ h.padding))))) := by
    rw [show (263 : Nat) = 257 + 6 from rfl, ← List.drop_drop, d257]
    exact drop_len_append _ _ _ e9
  have d265 : h.asBytes.drop 265 =
      h.uname ++ (h.gname ++ (h.devmajor ++
      (h.devminor ++ (h.pfix ++ h.padding)))) := by
    rw [show (265 : Nat) = 263 + 2 from rfl, ← List.drop_drop, d263]
    exact drop_len_append _ _ _ e10
  have d297 : h.asBytes.drop 297 =
      h.gname ++ (h.devmajor ++ (h.devminor ++ (h.pfix ++ h.padding))) := by
    rw [show (297 : Nat) = 265 + 32 from rfl, ← List.drop_drop, d265]
    exact drop_len_append _ _ _ e11
  have d329 : h.asBytes.drop 329 =
      h.devmajor ++ (h.devminor ++ (h.pfix ++ h.padding)) := by
    rw [show (329 : Nat) = 297 + 32 from rfl, ← List.drop_drop, d297]
    exact drop_len_append _ _ _ e12
  have d337 : h.asBytes.drop 337 = h.devminor ++ (h.pfix ++ h.padding) := by
    rw [show (337 : Nat) = 329 + 8 from rfl, ← List.drop_drop, d329]
    exact drop_len_append _ _ _ e13
  have d345 : h.asBytes.drop 345 = h.pfix ++ h.padding := by
    rw [show (345 : Nat) = 337 + 8 from rfl, ← List.drop_drop, d337]
    exact drop_len_append _ _ _ e14
  have d500 : h.asBytes.drop 500 = h.padding := by
    rw [show (500 : Nat) = 345 + 155 from rfl, ← List.drop_drop, d345]
    exact drop_len_append _ _ _ e15
  have hty : h.asBytes.getD 156 0 = h.typeflag := by
    have h0 : h.asBytes[156]? = some h.typeflag := by
      have hdz := List.getElem?_drop h.asBytes 156 0
      rw [d156] at hdz
      simp only [Nat.add_zero] at hdz
      rw [← hdz]
      simp
    rw [List.getD_eq_getElem?_getD, h0]
    rfl
  apply TarHeader.extEq
  · rw [ofBytes_name, List.drop_zero, assoc]; exact take_len_append _ _ _ e1
  · rw [ofBytes_mode, d100]; exact take_len_append _ _ _ e2
  · rw [ofBytes_uid, d108]; exact take_len_append _ _ _ e3
  · rw [ofBytes_gid, d116]; exact take_len_append _ _ _ e4
  · rw [ofBytes_size, d124]; exact take_len_append _ _ _ e5
  · rw [ofBytes_mtime, d136]; exact take_len_append _ _ _ e6
  · rw [ofBytes_chksum, d148]; exact take_len_append _ _ _ e7
  · rw [ofBytes_typeflag]; exact hty
  · rw [ofBytes_linkname, d157]; exact take_len_append _ _ _ e8
  · rw [ofBytes_magic, d257]; exact take_len_append _ _ _ e9
  · rw [ofBytes_version, d263]; exact take_len_append _ _ _ e10
  · rw [ofBytes_uname, d265]; exact take_len_append _ _ _ e11
  · rw [ofBytes_gname, d297]; exact take_len_append _ _ _ e12
  · rw [ofBytes_devmajor, d329]; exact take_len_append _ _ _ e13
  · rw [ofBytes_devminor, d337]; exact take_len_append _ _ _ e14
  · rw [ofBytes_pfix, d345]; exact take_len_append _ _ _ e15
  · rw [ofBytes_padding, d500]; exact List.take_of_length_le (le_of_eq e16)

/-! ## Supporting lemmas: header field operations -/

theorem mem_asBytes (h : TarHeader) (b : Nat) :
    b ∈ h.asBytes ↔ b ∈ h.name ∨ b ∈ h.mode ∨ b ∈ h.uid ∨ b ∈ h.gid ∨
      b ∈ h.size ∨ b ∈ h.mtime ∨ b ∈ h.chksum ∨ b = h.typeflag ∨
      b ∈ h.linkname ∨ b ∈ h.magic ∨ b ∈ h.version ∨ b ∈ h.uname ∨
      b ∈ h.gname ∨ b ∈ h.devmajor ∨ b ∈ h.devminor ∨ b ∈ h.pfix ∨
      b ∈ h.padding := by
  simp [TarHeader.asBytes, List.mem_append, or_assoc]

theorem assign_size_some (h : TarHeader) (n : Nat) (hlen : h.size.length = 12)
    (hn : n < 8 ^ 11) :
    h.assign_size n = some { h with size := fmtOct 11 n ++ [0] } := by
  unfold TarHeader.assign_size
  rw [copyFrom_some _ _ (by
    simp [List.length_append, fmtOct_length 11 n (by norm_num) hn, hlen])]
  rfl

theorem parse_size_fmtOct (h : TarHeader) (n : Nat) (hn : n < 8 ^ 11)
    (hsz : h.size = fmtOct 11 n ++ [0]) : h.parse_size = some n := by
  have hdig : ∀ d ∈ fmtOct 11 n, 48 ≤ d ∧ d ≤ 55 := by
    intro d hd
    rw [fmtOct, fmtPad, List.mem_append] at hd
    rcases hd with h1 | h2
    · have := List.eq_of_mem_replicate h1
      omega
    · have := digitsBase_bounds 8 n (by norm_num) d h2
      omega
  have hlen : (fmtOct 11 n).length = 11 := fmtOct_length 11 n (by norm_num) hn
  obtain ⟨c, cs, hcons⟩ : ∃ c cs, fmtOct 11 n = c :: cs := by
    match hgen : fmtOct 11 n with
    | [] => rw [hgen] at hlen; simp at hlen
    | c :: cs => exact ⟨c, cs, rfl⟩
  have hc : 48 ≤ c := (hdig c (by rw [hcons]; simp)).1
  have hnul : cstrUntilNul (fmtOct 11 n ++ [0]) = some (fmtOct 11 n) := by
    have hz : (fmtOct 11 n ++ [0] : List Nat) = fmtOct 11 n ++ 0 :: [] := rfl
    rw [hz]
    exact cstrUntilNul_append _ _ (fun x hx => by have := hdig x hx; omega)
  have hTos : toStrOk (fmtOct 11 n) = some (fmtOct 11 n) :=
    toStrOk_of_ascii _ (fun x hx => by have := hdig x hx; omega)
  have hhead : ((fmtOct 11 n ++ [0] : List Nat)).headD 0 = c := by
    rw [hcons]
    rfl
  unfold TarHeader.parse_size
  rw [hsz]
  rw [if_neg (by rw [hhead]; omega)]
  have hred : ((cstrUntilNul (fmtOct 11 n ++ [0])).bind toStrOk).getD [] =
      fmtOct 11 n := by
    simp [hnul, hTos]
  rw [hred]
  exact fromOctStr_fmtOct (2 ^ 64) 11 n (by norm_num) hn
    (lt_of_lt_of_le hn (by norm_num))

theorem Bounded_iff (h : TarHeader) : h.Bounded ↔
    (∀ b ∈ h.name, b < 256) ∧ (∀ b ∈ h.mode, b < 256) ∧
    (∀ b ∈ h.uid, b < 256) ∧ (∀ b ∈ h.gid, b < 256) ∧
    (∀ b ∈ h.size, b < 256) ∧ (∀ b ∈ h.mtime, b < 256) ∧
    (∀ b ∈ h.chksum, b < 256) ∧ h.typeflag < 256 ∧
    (∀ b ∈ h.linkname, b < 256) ∧ (∀ b ∈ h.magic, b < 256) ∧
    (∀ b ∈ h.version, b < 256) ∧ (∀ b ∈ h.uname, b < 256) ∧
    (∀ b ∈ h.gname, b < 256) ∧ (∀ b ∈ h.devmajor, b < 256) ∧
    (∀ b ∈ h.devminor, b < 256) ∧ (∀ b ∈ h.pfix, b < 256) ∧
    (∀ b ∈ h.padding, b < 256) := by
  unfold TarHeader.Bounded
  simp only [mem_asBytes, or_imp, forall_and, forall_eq]

theorem assign_checksum_eq (h : TarHeader) (hs : h.Sized) (hb : h.Bounded) :
    h.assign_checksum = some { h with chksum := fmtOct 6 (spacedSum h) ++ [0, 32] } := by
  obtain ⟨e1, e2, e3, e4, e5, e6, e7, e8, e9, e10, e11, e12, e13, e14, e15, e16⟩ := hs
  have h1s : TarHeader.Sized { h with chksum := List.replicate 8 32 } := by
    exact ⟨e1, e2, e3, e4, e5, e6, by simp, e8, e9, e10, e11, e12, e13, e14, e15, e16⟩
  have h1b : TarHeader.Bounded { h with chksum := List.replicate 8 32 } := by
    rw [Bounded_iff] at hb ⊢
    obtain ⟨b1, b2, b3, b4, b5, b6, _, b8, b9, b10, b11, b12, b13, b14, b15, b16, b17⟩ := hb
    exact ⟨b1, b2, b3, b4, b5, b6,
      fun b hm => by have := List.eq_of_mem_replicate hm; omega,
      b8, b9, b10, b11, b12, b13, b14, b15, b16, b17⟩
  have hsum : spacedSum h ≤ 512 * 255 := by
    have hl := TarHeader.asBytes_length _ h1s
    have := sum_le_of_bounds _ h1b
    unfold spacedSum
    omega
  simp only [TarHeader.assign_checksum]
  rw [e7]
  have hfold : ({ h with chksum := List.replicate 8 32 } : TarHeader).asBytes.foldl
      (fun a b => (a + b) % 2 ^ 32) 0 = spacedSum h := by
    have := foldl_mod_eq_add_sum
      ({ h with chksum := List.replicate 8 32 } : TarHeader).asBytes 0
      (by unfold spacedSum at hsum; omega)
    unfold spacedSum
    simpa using this
  rw [hfold]
  rw [copyFrom_some _ _ (by
    simp only [List.length_append]
    rw [fmtOct_length 6 _ (by norm_num) (by norm_num; omega)]
    simp)]
  rfl

/-- `assign_permission_encoding_meta` on a well-sized header: all writes
succeed and land as stated. -/
theorem assign_meta_some (h : TarHeader) (hs : h.Sized) :
    h.assign_permission_encoding_meta = some { h with
      mode := [48, 48, 48, 48, 54, 52, 52, 0],
      uid := [48, 49, 55, 55, 55, 55, 54, 0],
      gid := [48, 49, 55, 55, 55, 55, 54, 0],
      mtime := [49, 52, 55, 48, 55, 48, 52, 49, 55, 55, 52, 0],
      magic := [117, 115, 116, 97, 114, 0],
      version := [32, 32],
      uname := [110, 111, 98, 111, 100, 121, 0] ++ h.uname.drop 7,
      gname := [110, 111, 98, 111, 100, 121, 0] ++ h.gname.drop 7 } := by
  obtain ⟨e1, e2, e3, e4, e5, e6, e7, e8, e9, e10, e11, e12, e13, e14, e15, e16⟩ := hs
  simp only [TarHeader.assign_permission_encoding_meta]
  rw [copyFrom_some _ _ (by simp [e2]), copyFrom_some _ _ (by simp [e3]),
    copyFrom_some _ _ (by simp [e4]), copyFrom_some _ _ (by simp [e6]),
    writeSlice_some _ _ _ (by simp [e11]), writeSlice_some _ _ _ (by simp [e12])]
  simp only [Option.bind_eq_bind, Option.some_bind]
  simp

/-- `assign_attributes` with default (empty) attributes only writes the
`"0\0"` device fields. -/
theorem assign_attributes_default (h : TarHeader)
    (hdj : h.devmajor.length = 8) (hdn : h.devminor.length = 8) :
    h.assign_attributes EntryAttributes.default =
      some { h with devmajor := [48, 0] ++ h.devmajor.drop 2,
                    devminor := [48, 0] ++ h.devminor.drop 2 } := by
  simp only [TarHeader.assign_attributes, EntryAttributes.default]
  have hd : digitsBase 8 0 ++ [0] = [48, 0] := rfl
  rw [hd]
  simp only [Option.pure_def, Option.bind_eq_bind, Option.some_bind]
  rw [writeSlice_some _ _ _ (by simp [hdj])]
  simp only [Option.map_some', Option.some_bind]
  rw [writeSlice_some _ _ _ (by simp [hdn])]
  simp

theorem fmtOct_digit_bounds (w n : Nat) : ∀ d ∈ fmtOct w n, 48 ≤ d ∧ d ≤ 55 := by
  intro d hd
  rw [fmtOct, fmtPad, List.mem_append] at hd
  rcases hd with h1 | h2
  · have := List.eq_of_mem_replicate h1
    omega
  · have := digitsBase_bounds 8 n (by norm_num) d h2
    omega

theorem spacedSum_le (h : TarHeader) (hs : h.Sized) (hb : h.Bounded) :
    spacedSum h ≤ 512 * 255 := by
  obtain ⟨e1, e2, e3, e4, e5, e6, e7, e8, e9, e10, e11, e12, e13, e14, e15, e16⟩ := hs
  have h1s : TarHeader.Sized { h with chksum := List.replicate 8 32 } :=
    ⟨e1, e2, e3, e4, e5, e6, by simp, e8, e9, e10, e11, e12, e13, e14, e15, e16⟩
  have h1b : TarHeader.Bounded { h with chksum := List.replicate 8 32 } := by
    rw [Bounded_iff] at hb ⊢
    obtain ⟨b1, b2, b3, b4, b5, b6, _, b8, b9, b10, b11, b12, b13, b14, b15, b16, b17⟩ := hb
    exact ⟨b1, b2, b3, b4, b5, b6,
      fun b hm => by have := List.eq_of_mem_replicate hm; omega,
      b8, b9, b10, b11, b12, b13, b14, b15, b16, b17⟩
  have hl := TarHeader.asBytes_length _ h1s
  have := sum_le_of_bounds _ h1b
  unfold spacedSum
  omega

/-! ## Claim C3 -/

/-- C3: for every well-formed header contents, after
`TarHeader::assign_checksum` the `chksum` field holds six octal ASCII
digits, a NUL and a space, encoding the unsigned sum of all 512 bytes of
the record computed with `chksum` treated as eight ASCII spaces; and
recomputing that spaces-substituted sum on the emitted record equals the
value written. -/
theorem c3_checksum (h : TarHeader) (hs : h.Sized) (hb : h.Bounded) :
    ∃ h2, h.assign_checksum = some h2 ∧
      ∃ ds, h2.chksum = ds ++ [0, 32] ∧ ds.length = 6 ∧
        (∀ d ∈ ds, 48 ≤ d ∧ d ≤ 55) ∧ octValFrom 0 ds = spacedSum h2 := by
  have hle := spacedSum_le h hs hb
  have h6 : spacedSum h < 8 ^ 6 := by omega
  refine ⟨_, assign_checksum_eq h hs hb, fmtOct 6 (spacedSum h), rfl, ?_, ?_, ?_⟩
  · exact fmtOct_length 6 _ (by norm_num) h6
  · exact fmtOct_digit_bounds 6 _
  · rw [fmtOct_val]
    unfold spacedSum
    congr 2

set_option maxRecDepth 4000 in
/-- Witness for C3 at the all-zero header. -/
theorem c3_checksum_witness : TarHeader.EMPTY.Sized ∧ TarHeader.EMPTY.Bounded ∧
    ∃ h2, TarHeader.EMPTY.assign_checksum = some h2 ∧
      ∃ ds, h2.chksum = ds ++ [0, 32] ∧ ds.length = 6 ∧
        (∀ d ∈ ds, 48 ≤ d ∧ d ≤ 55) ∧ octValFrom 0 ds = spacedSum h2 :=
  ⟨by decide, by decide, c3_checksum TarHeader.EMPTY (by decide) (by decide)⟩

/-! ## Claim C4 -/

/-- C4: for every `size < 2^33`, writing it with `assign_size` (eleven
octal digits and a NUL) and reading it back with `parse_size` returns
exactly the original size. -/
theorem c4_size_roundtrip (h : TarHeader) (hlen : h.size.length = 12)
    (n : Nat) (hn : n < 2 ^ 33) :
    ∃ h2, h.assign_size n = some h2 ∧
      h2.size = fmtOct 11 n ++ [0] ∧ h2.parse_size = some n := by
  have h33 : n < 8 ^ 11 := by
    have : (8 : Nat) ^ 11 = 2 ^ 33 := by norm_num
    omega
  refine ⟨_, assign_size_some h n hlen h33, rfl, ?_⟩
  exact parse_size_fmtOct _ n h33 rfl

/-- Witness for C4 at size 12345 on the all-zero header. -/
theorem c4_size_roundtrip_witness : TarHeader.EMPTY.size.length = 12 ∧
    (12345 : Nat) < 2 ^ 33 ∧
    ∃ h2, TarHeader.EMPTY.assign_size 12345 = some h2 ∧
      h2.size = fmtOct 11 12345 ++ [0] ∧ h2.parse_size = some 12345 :=
  ⟨by decide, by norm_num, c4_size_roundtrip TarHeader.EMPTY (by decide) 12345 (by norm_num)⟩

/-! ## Claim C5 -/

theorem writeSlice_replicate0 (src : List Nat) (n : Nat) (h : src.length ≤ n) :
    writeSlice (List.replicate n 0) 0 src =
      some (src ++ List.replicate (n - src.length) 0) := by
  rw [writeSlice_some _ _ _ (by simp; omega)]
  congr 1
  simp [List.drop_replicate]

theorem writeSlice_terminator (u : List Nat) (n : Nat) (h : u.length + 1 ≤ n) :
    writeSlice (u ++ List.replicate (n - u.length) 0) u.length [0] =
      some (u ++ 0 :: List.replicate (n - u.length - 1) 0) := by
  rw [writeSlice_some _ _ _ (by simp [List.length_append]; omega)]
  congr 1
  rw [take_len_append _ _ _ rfl]
  simp only [List.length_singleton]
  have hdrop : (u ++ List.replicate (n - u.length) 0).drop (u.length + 1) =
      List.replicate (n - u.length - 1) 0 := by
    rw [← List.drop_drop, drop_len_append _ _ _ rfl]
    simp [List.drop_replicate]
  rw [hdrop]
  simp

theorem fromOctStr_of_digits (bound : Nat) (ds : List Nat) (hne : ds ≠ [])
    (hd : ∀ d ∈ ds, 48 ≤ d ∧ d ≤ 55) (hb : octValFrom 0 ds < bound) :
    fromOctStr bound ds = some (octValFrom 0 ds) := by
  obtain ⟨c, cs, rfl⟩ : ∃ c cs, ds = c :: cs := by
    match ds, hne with
    | c :: cs, _ => exact ⟨c, cs, rfl⟩
  have hc : 48 ≤ c := (hd c (by simp)).1
  unfold fromOctStr
  split
  next heq =>
    injection heq with h1 _
    omega
  next =>
    rw [if_neg (by simp)]
    exact parseOctCore_some bound _ 0 hd hb

/-- Reading a NUL-terminated ASCII field
`payload ++ [0] ++ zero padding` the way `from_header` does. -/
theorem read_text_field (u : List Nat) (k : Nat) (hz : ∀ b ∈ u, b ≠ 0)
    (ha : ∀ b ∈ u, b < 128) :
    (cstrUntilNul (u ++ [0] ++ List.replicate k 0)).bind toStrOk = some u := by
  have h1 : (u ++ [0] ++ List.replicate k 0 : List Nat) =
      u ++ 0 :: List.replicate k 0 := by simp
  rw [h1, cstrUntilNul_append u _ hz]
  simp [toStrOk_of_ascii u ha]

/-- Reading back an octal field written as minimal digits, NUL, padding. -/
theorem read_oct_field (n bound k : Nat) (hb : n < bound) :
    ((cstrUntilNul (digitsBase 8 n ++ [0] ++ List.replicate k 0)).bind
      toStrOk).bind (fromOctStr bound) = some n := by
  have hd := digitsBase_bounds 8 n (by norm_num)
  rw [read_text_field _ k (fun b hm => by have := hd b hm; omega)
    (fun b hm => by have := hd b hm; omega)]
  simp only [Option.some_bind]
  have := fromOctStr_of_digits bound (digitsBase 8 n)
    (digitsAux_ne_nil 8 (n + 1) n (by omega))
    (fun d hm => by have := hd d hm; omega)
    (by rw [digitsBase8_val]; exact hb)
  rw [this, digitsBase8_val]

/-- Counterexample to C5 as stated: default attributes (`uname = gname =
None`) written into the empty header read back as `Some ""`, not `None`. -/
theorem c5_counterexample :
    (TarHeader.EMPTY.assign_attributes EntryAttributes.default).map
      EntryAttributes.from_header =
      some ⟨none, some [], some [], 0, 0⟩ ∧
    (⟨none, some [], some [], 0, 0⟩ : EntryAttributes) ≠ EntryAttributes.default := by
  constructor
  · decide
  · decide

/-- C5 (amended): `EntryAttributes` round-trip through an empty header for
attributes the encoding can represent: `mtime` absent or a whole-second
epoch offset below `2^33`, `uname`/`gname` present, NUL-free, ASCII and at
most 30 bytes, and `u16` device numbers. -/
theorem c5_attributes_roundtrip (a : EntryAttributes)
    (hm : a.mtime = none ∨ ∃ s : Nat, s < 2 ^ 33 ∧ a.mtime = some ⟨(s : Int), 0⟩)
    (hu : ∃ u, a.uname = some u ∧ u.length ≤ 30 ∧ (∀ b ∈ u, b ≠ 0) ∧ ∀ b ∈ u, b < 128)
    (hg : ∃ g, a.gname = some g ∧ g.length ≤ 30 ∧ (∀ b ∈ g, b ≠ 0) ∧ ∀ b ∈ g, b < 128)
    (hdj : a.devmajor < 2 ^ 16) (hdn : a.devminor < 2 ^ 16) :
    ∃ h2, TarHeader.EMPTY.assign_attributes a = some h2 ∧
      EntryAttributes.from_header h2 = a := by
  obtain ⟨mt, un, gn, dj, dn⟩ := a
  obtain ⟨u, hun, hul, hunz, hua⟩ := hu
  obtain ⟨g, hgn2, hgl, hgnz, hga⟩ := hg
  simp only at hun hgn2 hdj hdn hm
  subst hun hgn2
  have hdjL : (digitsBase 8 dj).length ≤ 6 :=
    digitsBase_length_le 8 dj 6 (by norm_num) (by norm_num) (by norm_num; omega)
  have hdnL : (digitsBase 8 dn).length ≤ 6 :=
    digitsBase_length_le 8 dn 6 (by norm_num) (by norm_num) (by norm_num; omega)
  -- readback of the four text/octal fields, shared by both mtime cases
  have hreadu : (cstrUntilNul (u ++ 0 :: List.replicate (32 - u.length - 1) 0)).bind
      toStrOk = some u := by
    rw [cstrUntilNul_append u _ hunz]
    simp [toStrOk_of_ascii u hua]
  have hreadg : (cstrUntilNul (g ++ 0 :: List.replicate (32 - g.length - 1) 0)).bind
      toStrOk = some g := by
    rw [cstrUntilNul_append g _ hgnz]
    simp [toStrOk_of_ascii g hga]
  have hreaddj : (((cstrUntilNul (digitsBase 8 dj ++ [0] ++
      List.replicate (8 - (digitsBase 8 dj ++ [0]).length) 0)).bind toStrOk).bind
      (fromOctStr (2 ^ 16))).getD 0 = dj := by
    rw [read_oct_field dj (2 ^ 16) _ hdj]
    rfl
  have hreaddn : (((cstrUntilNul (digitsBase 8 dn ++ [0] ++
      List.replicate (8 - (digitsBase 8 dn ++ [0]).length) 0)).bind toStrOk).bind
      (fromOctStr (2 ^ 16))).getD 0 = dn := by
    rw [read_oct_field dn (2 ^ 16) _ hdn]
    rfl
  rcases hm with hmt | ⟨s, hs, hmt⟩ <;> subst hmt
  · -- mtime = none
    simp only [TarHeader.assign_attributes, TarHeader.EMPTY]
    simp only [Option.pure_def, Option.bind_eq_bind, Option.some_bind]
    rw [if_pos (show u.length < (List.replicate 32 (0 : Nat)).length - 1 by simp; omega)]
    rw [writeSlice_replicate0 u 32 (by omega)]
    simp only [Option.some_bind]
    rw [writeSlice_terminator u 32 (by omega)]
    simp only [Option.some_bind]
    rw [if_pos (show g.length < (List.replicate 32 (0 : Nat)).length - 1 by simp; omega)]
    rw [writeSlice_replicate0 g 32 (by omega)]
    simp only [Option.some_bind]
    rw [writeSlice_terminator g 32 (by omega)]
    simp only [Option.some_bind]
    rw [writeSlice_replicate0 (digitsBase 8 dj ++ [0]) 8 (by simp; omega)]
    simp only [Option.map_some', Option.some_bind]
    rw [writeSlice_replicate0 (digitsBase 8 dn ++ [0]) 8 (by simp; omega)]
    simp only [Option.map_some', Option.some_bind]
    refine ⟨_, rfl, ?_⟩
    simp only [EntryAttributes.from_header, EntryAttributes.mk.injEq]
    refine ⟨by decide, ?_, ?_, ?_, ?_⟩
    · exact hreadu
    · exact hreadg
    · simpa [List.append_assoc] using hreaddj
    · simpa [List.append_assoc] using hreaddn
  · -- mtime = some (epoch + s seconds)
    have hsecs : SysTime.secsSinceEpochOr0 ⟨(s : Int), 0⟩ = s := by
      simp [SysTime.secsSinceEpochOr0]
    have h11 : s < 8 ^ 11 := by
      have he : (8 : Nat) ^ 11 = 2 ^ 33 := by norm_num
      omega
    simp only [TarHeader.assign_attributes, TarHeader.EMPTY]
    simp only [Option.pure_def, Option.bind_eq_bind, Option.some_bind]
    rw [hsecs]
    rw [copyFrom_some _ _ (by
      simp [fmtOct_length 11 s (by norm_num) h11])]
    simp only [Option.map_some', Option.some_bind]
    rw [if_pos (show u.length < (List.replicate 32 (0 : Nat)).length - 1 by simp; omega)]
    rw [writeSlice_replicate0 u 32 (by omega)]
    simp only [Option.some_bind]
    rw [writeSlice_terminator u 32 (by omega)]
    simp only [Option.some_bind]
    rw [if_pos (show g.length < (List.replicate 32 (0 : Nat)).length - 1 by simp; omega)]
    rw [writeSlice_replicate0 g 32 (by omega)]
    simp only [Option.some_bind]
    rw [writeSlice_terminator g 32 (by omega)]
    simp only [Option.some_bind]
    rw [writeSlice_replicate0 (digitsBase 8 dj ++ [0]) 8 (by simp; omega)]
    simp only [Option.map_some', Option.some_bind]
    rw [writeSlice_replicate0 (digitsBase 8 dn ++ [0]) 8 (by simp; omega)]
    simp only [Option.map_some', Option.some_bind]
    refine ⟨_, rfl, ?_⟩
    simp only [EntryAttributes.from_header, EntryAttributes.mk.injEq]
    refine ⟨?_, ?_, ?_, ?_, ?_⟩
    · have hrt : (cstrUntilNul (fmtOct 11 s ++ [0])).bind toStrOk =
          some (fmtOct 11 s) := by
        have hz : (fmtOct 11 s ++ [0] : List Nat) = fmtOct 11 s ++ 0 :: [] := rfl
        rw [hz, cstrUntilNul_append _ _
          (fun x hx => by have := fmtOct_digit_bounds 11 s x hx; omega)]
        simp [toStrOk_of_ascii _
          (fun x hx => by have := fmtOct_digit_bounds 11 s x hx; omega)]
      rw [hrt]
      simp only [Option.some_bind]
      rw [fromOctStr_fmtOct (2 ^ 64) 11 s (by norm_num) h11
        (lt_of_lt_of_le h11 (by norm_num))]
      rfl
    · exact hreadu
    · exact hreadg
    · simpa [List.append_assoc] using hreaddj
    · simpa [List.append_assoc] using hreaddn

/-- Witness for C5 at the attributes of the library's own round-trip test
(`mtime = epoch+1234s`, `uname = "alice"`, `gname = "bob"`, 42/24). -/
theorem c5_attributes_roundtrip_witness :
    ∃ h2, TarHeader.EMPTY.assign_attributes
        ⟨some ⟨(1234 : Int), 0⟩, some [97, 108, 105, 99, 101],
          some [98, 111, 98], 42, 24⟩ = some h2 ∧
      EntryAttributes.from_header h2 =
        ⟨some ⟨(1234 : Int), 0⟩, some [97, 108, 105, 99, 101],
          some [98, 111, 98], 42, 24⟩ :=
  c5_attributes_roundtrip _ (Or.inr ⟨1234, by norm_num, by decide⟩)
    ⟨[97, 108, 105, 99, 101], rfl, by norm_num, by decide, by decide⟩
    ⟨[98, 111, 98], rfl, by norm_num, by decide, by decide⟩
    (by norm_num) (by norm_num)

/-! ## Claim C6 -/

set_option maxRecDepth 10000 in
/-- Counterexample to C6 as stated: with `tail_len = 0` the start-of-file
header advertises `extra.len() + tail_len = 21` payload bytes, not
`tail_len + len(" comment=\">") = 11`. -/
theorem c6_counterexample :
    (TarEngine.start_of_file ⟨0, false⟩ cHead 21).map
      (fun p => p.1.header.parse_size) = some (some 21) ∧
    (21 : Nat) ≠ 0 + 11 := by
  constructor
  · decide
  · decide

/-- C6 (amended): for an ASCII `html_head` meeting the encoder's
preconditions (doctype-amended head under 91 bytes ending in `'>'`,
`entry_offset ≥ len(html_head)`, tail below `10^9` bytes), the
start-of-file header advertises a payload of
`10 + len(" comment=\">") + tail_len = 21 + tail_len` bytes — the
zero-padded 10-digit decimal prefix is part of the advertised payload —
and the returned `extra` bytes are the 10-digit decimal rendering of
`len(" comment=\">") + tail_len = 11 + tail_len` followed by
`" comment=\">"`. -/
theorem c6_start_of_file (e : TarEngine) (html_head : List Nat) (off : Nat)
    (hasc : ∀ b ∈ html_head, b < 128)
    (hlen : (doctype_safe_head html_head).length < 91)
    (hgt : (doctype_safe_head html_head).getLast? = some 62)
    (hoff : html_head.length ≤ off)
    (htl : off - html_head.length < 10 ^ 9) :
    ∃ r e2, e.start_of_file html_head off = some (r, e2) ∧
      r.consumed = html_head.length ∧
      r.extra = fmtDec 10 (11 + (off - html_head.length)) ++ COMMENT_INTRODUCER ∧
      (fmtDec 10 (11 + (off - html_head.length))).length = 10 ∧
      r.header.parse_size = some (21 + (off - html_head.length)) := by
  have hhd : ∀ b ∈ doctype_safe_head html_head, b < 128 := by
    intro b hb
    unfold doctype_safe_head at hb
    split at hb
    · exact hasc b hb
    · rw [List.mem_append] at hb
      rcases hb with h1 | h2
      · have hdall : ∀ x ∈ DOCTYPE_BYTES, x < 128 := by decide
        exact hdall b h1
      · exact hasc b h2
  have hne : doctype_safe_head html_head ≠ [] := by
    intro hcon
    rw [hcon] at hgt
    simp at hgt
  have hl1 : 1 ≤ (doctype_safe_head html_head).length := by
    rcases Nat.eq_zero_or_pos (doctype_safe_head html_head).length with h0 | h0
    · exact absurd (List.eq_nil_of_length_eq_zero h0) hne
    · exact h0
  have hp9 : (10 : Nat) ^ 9 = 1000000000 := by norm_num
  have hp10 : (10 : Nat) ^ 10 = 10000000000 := by norm_num
  have hp811 : (8 : Nat) ^ 11 = 8589934592 := by norm_num
  have hfl : (fmtDec 10 (11 + (off - html_head.length))).length = 10 :=
    fmtDec_length 10 _ (by norm_num) (by omega)
  have hcl : (COMMENT_INTRODUCER : List Nat).length = 11 := by decide
  have htk : ((doctype_safe_head html_head).take
      ((doctype_safe_head html_head).length - 1)).length =
      (doctype_safe_head html_head).length - 1 := by
    rw [List.length_take]
    omega
  have hlt91 : (doctype_safe_head html_head).length < 100 - DATA_ESCAPE.length := by
    have h9 : (100 : Nat) - DATA_ESCAPE.length = 91 := by decide
    omega
  simp only [TarEngine.start_of_file]
  rw [if_pos (And.intro hlt91 hgt)]
  simp only [Option.bind_eq_bind]
  rw [writeSlice_some _ _ _ (by
    rw [htk]
    simp [TarHeader.EMPTY]
    omega)]
  simp only [Option.some_bind]
  rw [writeSlice_some _ _ _ (by
    simp only [List.length_append, List.length_take, List.length_drop, htk]
    have hde : (DATA_ESCAPE : List Nat).length = 9 := by decide
    simp [TarHeader.EMPTY, hde]
    omega)]
  simp only [Option.some_bind]
  rw [show checkedSub off html_head.length = some (off - html_head.length) from by
    unfold checkedSub
    rw [if_pos hoff]]
  simp only [Option.some_bind]
  rw [hcl]
  set tl := off - html_head.length with htldef
  set nameF : List Nat :=
    TarHeader.EMPTY.name.take 1 ++
      (doctype_safe_head html_head).take ((doctype_safe_head html_head).length - 1) ++
      TarHeader.EMPTY.name.drop (1 + ((doctype_safe_head html_head).take
        ((doctype_safe_head html_head).length - 1)).length) with hnameF
  set nameG : List Nat :=
    nameF.take (1 + ((doctype_safe_head html_head).length - 1)) ++ DATA_ESCAPE ++
      nameF.drop (1 + ((doctype_safe_head html_head).length - 1) + DATA_ESCAPE.length)
    with hnameG
  have hnFlen : nameF.length = 100 := by
    rw [hnameF]
    simp only [List.length_append, List.length_take, List.length_drop, htk]
    simp [TarHeader.EMPTY]
    omega
  have hnGlen : nameG.length = 100 := by
    rw [hnameG]
    have hde : (DATA_ESCAPE : List Nat).length = 9 := by decide
    simp only [List.length_append, List.length_take, List.length_drop, hde, hnFlen]
    omega
  have hrepb : ∀ b ∈ (TarHeader.EMPTY.name : List Nat), b < 256 := by decide
  have hFb : ∀ b ∈ nameF, b < 256 := by
    rw [hnameF]
    intro b hb
    rw [List.mem_append, List.mem_append] at hb
    rcases hb with (hb | hb) | hb
    · exact hrepb b (List.take_subset _ _ hb)
    · have := hhd b (List.take_subset _ _ hb)
      omega
    · exact hrepb b (List.drop_subset _ _ hb)
  have hGb : ∀ b ∈ nameG, b < 256 := by
    rw [hnameG]
    intro b hb
    rw [List.mem_append, List.mem_append] at hb
    rcases hb with (hb | hb) | hb
    · exact hFb b (List.take_subset _ _ hb)
    · have hdb : ∀ x ∈ (DATA_ESCAPE : List Nat), x < 256 := by decide
      exact hdb b hb
    · exact hFb b (List.drop_subset _ _ hb)
  have hextlen : (fmtDec 10 (11 + tl) ++ COMMENT_INTRODUCER).length = 21 := by
    rw [List.length_append, hfl, hcl]
  rw [hextlen]
  have hsz : 21 + tl < 8 ^ 11 := by omega
  rw [assign_size_some _ (21 + tl) (by rfl) hsz]
  simp only [Option.some_bind]
  have h2s : TarHeader.Sized { TarHeader.EMPTY with
      name := nameG, typeflag := 120,
      size := fmtOct 11 (21 + tl) ++ [0] } := by
    refine ⟨hnGlen, rfl, rfl, rfl, ?_, rfl, rfl, rfl, rfl, rfl, rfl, rfl, rfl,
      rfl, rfl, rfl⟩
    show (fmtOct 11 (21 + tl) ++ [0]).length = 12
    rw [List.length_append, fmtOct_length 11 _ (by norm_num) hsz]
    rfl
  rw [assign_meta_some _ h2s]
  simp only [Option.some_bind]
  have h3s : TarHeader.Sized {
      name := nameG, mode := [48, 48, 48, 48, 54, 52, 52, 0],
      uid := [48, 49, 55, 55, 55, 55, 54, 0], gid := [48, 49, 55, 55, 55, 55, 54, 0],
      size := fmtOct 11 (21 + tl) ++ [0],
      mtime := [49, 52, 55, 48, 55, 48, 52, 49, 55, 55, 52, 0],
      chksum := TarHeader.EMPTY.chksum, typeflag := 120,
      linkname := TarHeader.EMPTY.linkname, magic := [117, 115, 116, 97, 114, 0],
      version := [32, 32],
      uname := [110, 111, 98, 111, 100, 121, 0] ++ List.drop 7 TarHeader.EMPTY.uname,
      gname := [110, 111, 98, 111, 100, 121, 0] ++ List.drop 7 TarHeader.EMPTY.gname,
      devmajor := TarHeader.EMPTY.devmajor, devminor := TarHeader.EMPTY.devminor,
      pfix := TarHeader.EMPTY.pfix, padding := TarHeader.EMPTY.padding } := by
    refine ⟨hnGlen, rfl, rfl, rfl, ?_, rfl, rfl, rfl, rfl, rfl, rfl, rfl, rfl,
      rfl, rfl, rfl⟩
    show (fmtOct 11 (21 + tl) ++ [0]).length = 12
    rw [List.length_append, fmtOct_length 11 _ (by norm_num) hsz]
    rfl
  have h3b : TarHeader.Bounded {
      name := nameG, mode := [48, 48, 48, 48, 54, 52, 52, 0],
      uid := [48, 49, 55, 55, 55, 55, 54, 0], gid := [48, 49, 55, 55, 55, 55, 54, 0],
      size := fmtOct 11 (21 + tl) ++ [0],
      mtime := [49, 52, 55, 48, 55, 48, 52, 49, 55, 55, 52, 0],
      chksum := TarHeader.EMPTY.chksum, typeflag := 120,
      linkname := TarHeader.EMPTY.linkname, magic := [117, 115, 116, 97, 114, 0],
      version := [32, 32],
      uname := [110, 111, 98, 111, 100, 121, 0] ++ List.drop 7 TarHeader.EMPTY.uname,
      gname := [110, 111, 98, 111, 100, 121, 0] ++ List.drop 7 TarHeader.EMPTY.gname,
      devmajor := TarHeader.EMPTY.devmajor, devminor := TarHeader.EMPTY.devminor,
      pfix := TarHeader.EMPTY.pfix, padding := TarHeader.EMPTY.padding } := by
    rw [Bounded_iff]
    refine ⟨hGb,
      (show ∀ b ∈ ([48, 48, 48, 48, 54, 52, 52, 0] : List Nat), b < 256 by decide),
      (show ∀ b ∈ ([48, 49, 55, 55, 55, 55, 54, 0] : List Nat), b < 256 by decide),
      (show ∀ b ∈ ([48, 49, 55, 55, 55, 55, 54, 0] : List Nat), b < 256 by decide),
      ?_,
      (show ∀ b ∈ ([49, 52, 55, 48, 55, 48, 52, 49, 55, 55, 52, 0] : List Nat), b < 256 by decide),
      (show ∀ b ∈ (TarHeader.EMPTY.chksum : List Nat), b < 256 by decide),
      (show (120 : Nat) < 256 by norm_num),
      (show ∀ b ∈ (TarHeader.EMPTY.linkname : List Nat), b < 256 by decide),
      (show ∀ b ∈ ([117, 115, 116, 97, 114, 0] : List Nat), b < 256 by decide),
      (show ∀ b ∈ ([32, 32] : List Nat), b < 256 by decide),
      (show ∀ b ∈ ([110, 111, 98, 111, 100, 121, 0] ++ (List.replicate 32 (0 : Nat)).drop 7 : List Nat), b < 256 by decide),
      (show ∀ b ∈ ([110, 111, 98, 111, 100, 121, 0] ++ (List.replicate 32 (0 : Nat)).drop 7 : List Nat), b < 256 by decide),
      (show ∀ b ∈ (TarHeader.EMPTY.devmajor : List Nat), b < 256 by decide),
      (show ∀ b ∈ (TarHeader.EMPTY.devminor : List Nat), b < 256 by decide),
      (show ∀ b ∈ (TarHeader.EMPTY.pfix : List Nat), b < 256 by decide),
      (show ∀ b ∈ (TarHeader.EMPTY.padding : List Nat), b < 256 by decide)⟩
    intro b hb
    rw [List.mem_append] at hb
    rcases hb with hb | hb
    · have := fmtOct_digit_bounds 11 (21 + tl) b hb
      omega
    · simp at hb
      omega
  rw [assign_checksum_eq _ h3s h3b]
  simp only [Option.some_bind]
  refine ⟨_, _, rfl, rfl, rfl, hfl, ?_⟩
  exact parse_size_fmtOct _ (21 + tl) hsz rfl

set_option maxRecDepth 10000 in
/-- Witness for C6 at the concrete head and `entry_offset = 26`. -/
theorem c6_start_of_file_witness :
    (∀ b ∈ cHead, b < 128) ∧ (doctype_safe_head cHead).length < 91 ∧
    (doctype_safe_head cHead).getLast? = some 62 ∧ cHead.length ≤ 26 ∧
    26 - cHead.length < 10 ^ 9 ∧
    ∃ r e2, TarEngine.start_of_file ⟨0, false⟩ cHead 26 = some (r, e2) ∧
      r.consumed = cHead.length ∧
      r.extra = fmtDec 10 (11 + (26 - cHead.length)) ++ COMMENT_INTRODUCER ∧
      (fmtDec 10 (11 + (26 - cHead.length))).length = 10 ∧
      r.header.parse_size = some (21 + (26 - cHead.length)) :=
  ⟨by decide, by decide, by decide, by decide, by decide,
    c6_start_of_file ⟨0, false⟩ cHead 26 (by decide) (by decide) (by decide)
      (by decide) (by decide)⟩

/-! ## Claim C7 -/

set_option maxRecDepth 10000 in
/-- C7: on an encoder-produced initial block `TarDecompiler::start_of_file`
returns the header range `(1, 23)` — covering the original
`"<!DOCTYPE html><html"` (artifact bytes 1..21) PLUS the first two bytes
`" d"` (32, 100) of the injected ` data-a="` suffix — instead of the range
`(1, 21)` that ends immediately before the suffix.  The code subtracts 6
where the injected `DATA_ESCAPE` suffix is 9 bytes long (its own comment
says "append 6 bytes"), leaving 2 suffix bytes inside the range.  The
`continues` range `(532, 538)` is `[512 + index_of('>') .. cursor]` as
specified. -/
theorem c7_header_range_overshoot :
    TarDecompiler.start_of_file ⟨0⟩ c7Block =
      some (.ok (⟨(1, 23), (532, 538)⟩, ⟨538⟩)) ∧
    (c7Block.drop 1).take 20 = cHead.take 20 ∧
    (c7Block.drop 1).take 22 = cHead.take 20 ++ [32, 100] := by
  refine ⟨by decide, by decide, by decide⟩

/-! ## Claim C8 -/

set_option maxRecDepth 10000 in
/-- Counterexample to C8 as stated: a first header with `typeflag = 'x'`
whose size field does not parse makes `next_double_header` return the
`Num` parse error, not `NotAnExpectedEscape`. -/
theorem c8_counterexample :
    TarDecompiler.next_double_header ⟨0⟩ c8Bad = some (.error .Num) ∧
    TarError.Num ≠ TarError.NotAnExpectedEscape := by
  refine ⟨by decide, by decide⟩

theorem ofBytes_Sized (l : List Nat) (h : 512 ≤ l.length) :
    (TarHeader.ofBytes l).Sized := by
  refine ⟨?_, ?_, ?_, ?_, ?_, ?_, ?_, ?_, ?_, ?_, ?_, ?_, ?_, ?_, ?_, ?_⟩
  · rw [ofBytes_name]; simp [List.length_take, List.length_drop]; omega
  · rw [ofBytes_mode]; simp [List.length_take, List.length_drop]; omega
  · rw [ofBytes_uid]; simp [List.length_take, List.length_drop]; omega
  · rw [ofBytes_gid]; simp [List.length_take, List.length_drop]; omega
  · rw [ofBytes_size]; simp [List.length_take, List.length_drop]; omega
  · rw [ofBytes_mtime]; simp [List.length_take, List.length_drop]; omega
  · rw [ofBytes_chksum]; simp [List.length_take, List.length_drop]; omega
  · rw [ofBytes_linkname]; simp [List.length_take, List.length_drop]; omega
  · rw [ofBytes_magic]; simp [List.length_take, List.length_drop]; omega
  · rw [ofBytes_version]; simp [List.length_take, List.length_drop]; omega
  · rw [ofBytes_uname]; simp [List.length_take, List.length_drop]; omega
  · rw [ofBytes_gname]; simp [List.length_take, List.length_drop]; omega
  · rw [ofBytes_devmajor]; simp [List.length_take, List.length_drop]; omega
  · rw [ofBytes_devminor]; simp [List.length_take, List.length_drop]; omega
  · rw [ofBytes_pfix]; simp [List.length_take, List.length_drop]; omega
  · rw [ofBytes_padding]; simp [List.length_take, List.length_drop]; omega

theorem asBytes_inj (h1 h2 : TarHeader) (hs1 : h1.Sized) (hs2 : h2.Sized)
    (he : h1.asBytes = h2.asBytes) : h1 = h2 := by
  have e1 := TarHeader.ofBytes_asBytes h1 hs1
  have e2 := TarHeader.ofBytes_asBytes h2 hs2
  rw [← e1, ← e2, he]

set_option maxRecDepth 4000 in
/-- C8 (amended): classification of the double header at the 512-aligned
cursor, as performed by `next_double_header`/`continue_escape` when at
least the two 512-byte headers are available: a first header whose
`prefix` ends in `"</noscript>"` (and whose size parses) yields
`EndOfEscapes` over the advertised size; two all-zero headers yield
`Eof` at the cursor, after which `continue_escape` verifies and skips a
literal `"</noscript>"` when present in range and returns
`NotAnExpectedEscape` when the bytes there differ; any other double
header (with a parseable file size) yields `Entry` with the file header
and its payload range after verifying the first header has
`typeflag = 'x'` and a size that parses to zero — a non-`'x'` typeflag or
a nonzero parsed size yields `NotAnExpectedEscape` (an unparseable first
size yields the `Num` error instead, see the counterexample). -/
theorem c8_classification (d0 : Nat) (data : List Nat)
    (hlen : roundUp512 d0 + 1024 ≤ data.length) :
    (∀ s, endsWith (TarHeader.ofBytes ((data.drop (roundUp512 d0)).take 512)).pfix
        NOSCRIPT_CLOSE = true →
      (TarHeader.ofBytes ((data.drop (roundUp512 d0)).take 512)).parse_size = some s →
      TarDecompiler.next_double_header ⟨d0⟩ data =
        some (.ok (.EndOfEscapes (roundUp512 d0 + 512, roundUp512 d0 + 512 + s),
          ⟨roundUp512 d0 + 512 + s⟩))) ∧
    (endsWith (TarHeader.ofBytes ((data.drop (roundUp512 d0)).take 512)).pfix
        NOSCRIPT_CLOSE = false →
      (TarHeader.ofBytes ((data.drop (roundUp512 d0)).take 512)).asBytes =
        TarHeader.EMPTY.asBytes →
      (TarHeader.ofBytes (((data.drop (roundUp512 d0)).drop 512).take 512)).asBytes =
        TarHeader.EMPTY.asBytes →
      TarDecompiler.next_double_header ⟨d0⟩ data =
        some (.ok (.Eof (roundUp512 d0 + 1024), ⟨roundUp512 d0 + 1024⟩)) ∧
      ((data.drop (roundUp512 d0 + 1024)).take 11 = NOSCRIPT_CLOSE →
        roundUp512 d0 + 1024 + 11 ≤ data.length →
        TarDecompiler.continue_escape ⟨d0⟩ data =
          some (.ok (.Eof (roundUp512 d0 + 1024 + 11), ⟨roundUp512 d0 + 1024⟩))) ∧
      ((data.drop (roundUp512 d0 + 1024)).take 11 ≠ NOSCRIPT_CLOSE →
        roundUp512 d0 + 1024 + 11 ≤ data.length →
        TarDecompiler.continue_escape ⟨d0⟩ data =
          some (.error .NotAnExpectedEscape))) ∧
    (∀ s, endsWith (TarHeader.ofBytes ((data.drop (roundUp512 d0)).take 512)).pfix
        NOSCRIPT_CLOSE = false →
      ¬((TarHeader.ofBytes ((data.drop (roundUp512 d0)).take 512)).asBytes =
          TarHeader.EMPTY.asBytes ∧
        (TarHeader.ofBytes (((data.drop (roundUp512 d0)).drop 512).take 512)).asBytes =
          TarHeader.EMPTY.asBytes) →
      (TarHeader.ofBytes (((data.drop (roundUp512 d0)).drop 512).take 512)).parse_size =
        some s →
      (TarHeader.ofBytes ((data.drop (roundUp512 d0)).take 512)).typeflag = 120 →
      (TarHeader.ofBytes ((data.drop (roundUp512 d0)).take 512)).parse_size = some 0 →
      TarDecompiler.next_double_header ⟨d0⟩ data =
        some (.ok (.Entry (TarHeader.ofBytes (((data.drop (roundUp512 d0)).drop 512).take 512))
          (roundUp512 d0 + 1024, roundUp512 d0 + 1024 + s),
          ⟨roundUp512 d0 + 1024 + s⟩))) ∧
    (∀ s, endsWith (TarHeader.ofBytes ((data.drop (roundUp512 d0)).take 512)).pfix
        NOSCRIPT_CLOSE = false →
      ¬((TarHeader.ofBytes ((data.drop (roundUp512 d0)).take 512)).asBytes =
          TarHeader.EMPTY.asBytes ∧
        (TarHeader.ofBytes (((data.drop (roundUp512 d0)).drop 512).take 512)).asBytes =
          TarHeader.EMPTY.asBytes) →
      (TarHeader.ofBytes (((data.drop (roundUp512 d0)).drop 512).take 512)).parse_size =
        some s →
      (TarHeader.ofBytes ((data.drop (roundUp512 d0)).take 512)).typeflag ≠ 120 →
      TarDecompiler.next_double_header ⟨d0⟩ data =
        some (.error .NotAnExpectedEscape)) ∧
    (∀ s s0, endsWith (TarHeader.ofBytes ((data.drop (roundUp512 d0)).take 512)).pfix
        NOSCRIPT_CLOSE = false →
      ¬((TarHeader.ofBytes ((data.drop (roundUp512 d0)).take 512)).asBytes =
          TarHeader.EMPTY.asBytes ∧
        (TarHeader.ofBytes (((data.drop (roundUp512 d0)).drop 512).take 512)).asBytes =
          TarHeader.EMPTY.asBytes) →
      (TarHeader.ofBytes (((data.drop (roundUp512 d0)).drop 512).take 512)).parse_size =
        some s →
      (TarHeader.ofBytes ((data.drop (roundUp512 d0)).take 512)).typeflag = 120 →
      (TarHeader.ofBytes ((data.drop (roundUp512 d0)).take 512)).parse_size = some s0 →
      s0 ≠ 0 →
      TarDecompiler.next_double_header ⟨d0⟩ data =
        some (.error .NotAnExpectedEscape)) := by
  have hp : ¬ data.length < roundUp512 d0 := by omega
  have hr1 : ¬ (data.drop (roundUp512 d0)).length < 512 := by
    simp [List.length_drop]
    omega
  have hr2 : ¬ (data.drop (roundUp512 d0)).length < 1024 := by
    simp [List.length_drop]
    omega
  refine ⟨?_, ?_, ?_, ?_, ?_⟩
  · -- EndOfEscapes
    intro s hpfx hsz
    simp only [TarDecompiler.next_double_header, TarDecompiler.pad_to_fit]
    rw [if_neg hp, if_neg hr1, if_pos hpfx, hsz]
  · -- Eof, and the continue_escape refinements
    intro hpfx hz1 hz2
    have hfs : (TarHeader.ofBytes (((data.drop (roundUp512 d0)).drop 512).take 512)).parse_size
        = some 0 := by
      have hsz : (TarHeader.ofBytes (((data.drop (roundUp512 d0)).drop 512).take 512)) =
          TarHeader.EMPTY := by
        apply asBytes_inj _ _ (ofBytes_Sized _ (by simp [List.length_take, List.length_drop]; omega))
          EMPTY_Sized hz2
      rw [hsz]
      decide
    have hnext : TarDecompiler.next_double_header ⟨d0⟩ data =
        some (.ok (.Eof (roundUp512 d0 + 1024), ⟨roundUp512 d0 + 1024⟩)) := by
      simp only [TarDecompiler.next_double_header, TarDecompiler.pad_to_fit]
      rw [if_neg hp, if_neg hr1, if_neg (by rw [hpfx]; simp), if_neg hr2, hfs]
      simp only []
      rw [if_pos ⟨hz1, hz2⟩]
    refine ⟨hnext, ?_, ?_⟩
    · intro hterm hbound
      simp only [TarDecompiler.continue_escape]
      rw [hnext]
      simp only []
      have hcl : (NOSCRIPT_CLOSE : List Nat).length = 11 := by decide
      rw [hcl, if_pos (by omega), if_pos hterm]
    · intro hterm hbound
      simp only [TarDecompiler.continue_escape]
      rw [hnext]
      simp only []
      have hcl : (NOSCRIPT_CLOSE : List Nat).length = 11 := by decide
      rw [hcl, if_pos (by omega), if_neg hterm]
  · -- Entry
    intro s hpfx hnz hsz hty hsz0
    simp only [TarDecompiler.next_double_header, TarDecompiler.pad_to_fit]
    rw [if_neg hp, if_neg hr1, if_neg (by rw [hpfx]; simp), if_neg hr2, hsz]
    simp only []
    rw [if_neg hnz, if_neg (by simp [hty]), hsz0]
    simp only []
    rw [if_neg (by simp)]
  · -- not an 'x'
    intro s hpfx hnz hsz hty
    simp only [TarDecompiler.next_double_header, TarDecompiler.pad_to_fit]
    rw [if_neg hp, if_neg hr1, if_neg (by rw [hpfx]; simp), if_neg hr2, hsz]
    simp only []
    rw [if_neg hnz, if_pos hty]
  · -- 'x' with nonzero size
    intro s s0 hpfx hnz hsz hty hsz0 hs0
    simp only [TarDecompiler.next_double_header, TarDecompiler.pad_to_fit]
    rw [if_neg hp, if_neg hr1, if_neg (by rw [hpfx]; simp), if_neg hr2, hsz]
    simp only []
    rw [if_neg hnz, if_neg (by simp [hty]), hsz0]
    simp only []
    rw [if_pos hs0]

set_option maxRecDepth 10000 in
theorem c8_classification_witness :
    TarDecompiler.next_double_header ⟨0⟩ c8W =
      some (.ok (.Eof (roundUp512 0 + 1024), ⟨roundUp512 0 + 1024⟩)) ∧
    TarDecompiler.continue_escape ⟨0⟩ c8W =
      some (.ok (.Eof (roundUp512 0 + 1024 + 11), ⟨roundUp512 0 + 1024⟩)) := by
  have h := (c8_classification 0 c8W (by decide)).2.1
    (by decide) (by decide) (by decide)
  exact ⟨h.1, h.2.1 (by decide) (by decide)⟩

/-! ## C10: name placement in the 100-byte name field -/

theorem writeSlice_none (dst : List Nat) (off : Nat) (src : List Nat)
    (h : dst.length < off + src.length) : writeSlice dst off src = none := by
  unfold writeSlice
  rw [if_neg (by omega)]

theorem checkedSub_some (a b : Nat) (h : b ≤ a) : checkedSub a b = some (a - b) := by
  unfold checkedSub
  rw [if_pos h]

theorem checkedSub_none (a b : Nat) (h : a < b) : checkedSub a b = none := by
  unfold checkedSub
  rw [if_neg (by omega)]

theorem mkEscapeFileHeader_none (qualname : List Nat) (dataLen : Nat)
    (h : 90 ≤ qualname.length) : mkEscapeFileHeader qualname dataLen = none := by
  have hn : TarHeader.EMPTY.name.length = 100 := by decide
  simp only [mkEscapeFileHeader]
  rcases Nat.lt_or_ge 100 qualname.length with hgt | hle
  · rw [writeSlice_none _ _ _ (by omega)]
    simp only [Option.bind_eq_bind, Option.none_bind]
  · rw [writeSlice_some _ _ _ (by omega)]
    simp only [Option.bind_eq_bind, Option.some_bind]
    have hlen : (TarHeader.EMPTY.name.take 0 ++ qualname ++
        TarHeader.EMPTY.name.drop (0 + qualname.length)).length = 100 := by
      rw [List.length_append, List.length_append, List.length_take,
        List.length_drop, hn]
      omega
    rw [hlen]
    rcases Nat.lt_or_ge qualname.length 100 with hlt | hge
    · rw [checkedSub_some _ _ (by omega)]
      simp only [Option.some_bind]
      have hid : (ID_END_CONT : List Nat).length = 10 := by decide
      rw [hid, checkedSub_none _ _ (by omega)]
      simp only [Option.none_bind]
    · rw [checkedSub_none _ _ (by omega)]
      simp only [Option.none_bind]

set_option maxRecDepth 2000 in
theorem mkEscapeFileHeader_isSome (qualname : List Nat) (dataLen : Nat)
    (hq : qualname.length ≤ 89) (hd : dataLen < 8 ^ 11) :
    (mkEscapeFileHeader qualname dataLen).isSome = true := by
  have hn : TarHeader.EMPTY.name.length = 100 := by decide
  have hid : (ID_END_CONT : List Nat).length = 10 := by decide
  simp only [mkEscapeFileHeader]
  rw [writeSlice_some _ _ _ (by omega)]
  simp only [Option.bind_eq_bind, Option.some_bind]
  have hlen : (TarHeader.EMPTY.name.take 0 ++ qualname ++
      TarHeader.EMPTY.name.drop (0 + qualname.length)).length = 100 := by
    rw [List.length_append, List.length_append, List.length_take,
      List.length_drop, hn]
    omega
  rw [hlen, checkedSub_some _ _ (by omega)]
  simp only [Option.some_bind]
  rw [hid, checkedSub_some _ _ (by omega)]
  simp only [Option.some_bind]
  rw [writeSlice_some _ _ _ (by rw [hlen, hid]; omega)]
  simp only [Option.some_bind]
  rw [writeSlice_some TarHeader.EMPTY.pfix _ _ (by decide)]
  simp only [Option.some_bind]
  have hn2 : (((TarHeader.EMPTY.name.take 0 ++ qualname ++
      TarHeader.EMPTY.name.drop (0 + qualname.length)).take
        (qualname.length + 1 + (100 - qualname.length - 1 - 10)) ++ ID_END_CONT ++
      (TarHeader.EMPTY.name.take 0 ++ qualname ++
      TarHeader.EMPTY.name.drop (0 + qualname.length)).drop
        (qualname.length + 1 + (100 - qualname.length - 1 - 10) +
          ID_END_CONT.length)).length) = 100 := by
    rw [List.length_append, List.length_append, List.length_take,
      List.length_drop, hlen, hid]
    omega
  rw [assign_size_some _ _ (by rfl) hd]
  simp only [Option.some_bind]
  rw [assign_meta_some _ (by
    refine ⟨hn2, ?_, ?_, ?_, ?_, ?_, ?_, ?_, ?_, ?_, ?_, ?_, ?_, ?_, ?_, ?_⟩
    · rfl
    · rfl
    · rfl
    · show (fmtOct 11 dataLen ++ [0]).length = 12
      rw [List.length_append, fmtOct_length 11 dataLen (by norm_num) hd]
      rfl
    · rfl
    · rfl
    · rfl
    · rfl
    · rfl
    · rfl
    · rfl
    · rfl
    · rfl
    · rfl
    · rfl)]
  rfl

set_option maxRecDepth 2000 in
/-- C10: the in-bounds placement of the qualified name plus the
right-aligned 10-byte `"\" data-b=\""` marker inside the 100-byte name
field (the header built by `continue_qualified` at lib.rs:498-509)
succeeds exactly when the name is at most 89 bytes; an
`HtmlAttributeSafeName`-valid name of 90 bytes or more makes
`escaped_base64` panic (return `none`) instead of producing a record. -/
theorem c10_name_placement :
    (∀ (qualname : List Nat) (dataLen : Nat), dataLen < 8 ^ 11 →
      ((mkEscapeFileHeader qualname dataLen).isSome = true ↔ qualname.length ≤ 89)) ∧
    (∀ (e : TarEngine) (ent : Entry), validAttributeName ent.name = true →
      90 ≤ ent.name.length → e.escaped_base64 ent = none) := by
  constructor
  · intro qualname dataLen hd
    constructor
    · intro hs
      by_contra hgt
      rw [mkEscapeFileHeader_none qualname dataLen (by omega)] at hs
      simp at hs
    · intro hle
      exact mkEscapeFileHeader_isSome qualname dataLen hle hd
  · intro e ent _ hlong
    simp only [TarEngine.escaped_base64, TarEngine.continue_qualified,
      TarEngine.pad_to_fit]
    rcases hE : mkEscapeExtensionHeader
        (if ({ e with len := e.len + (roundUp512 e.len - e.len) } :
          TarEngine).is_escaped then CONT_NAME else START_NAME) with _ | t
    · simp only [Option.bind_eq_bind, Option.none_bind]
    · simp only [Option.bind_eq_bind, Option.some_bind]
      rw [mkEscapeFileHeader_none ent.name _ hlong]
      simp only [Option.none_bind]

/-! ## Sized preservation through the header-mutating operations -/

theorem roundUp512_ge (n : Nat) : n ≤ roundUp512 n := by
  unfold roundUp512
  have h1 := Nat.div_add_mod (n + 511) 512
  have h2 : (n + 511) % 512 < 512 := Nat.mod_lt _ (by norm_num)
  omega

theorem roundUp512_mod (n : Nat) : roundUp512 n % 512 = 0 :=
  Nat.mul_mod_left _ _

theorem assign_size_Sized (h : TarHeader) (n : Nat) (h2 : TarHeader)
    (hs : h.Sized) (he : h.assign_size n = some h2) : h2.Sized := by
  unfold TarHeader.assign_size at he
  rcases Option.map_eq_some'.mp he with ⟨s, hcf, rfl⟩
  have hl := copyFrom_length _ _ _ hcf
  obtain ⟨e1, e2, e3, e4, e5, e6, e7, e8, e9, e10, e11, e12, e13, e14, e15, e16⟩ := hs
  exact ⟨e1, e2, e3, e4, hl.trans e5, e6, e7, e8, e9, e10, e11, e12, e13, e14, e15, e16⟩

theorem assign_meta_Sized (h h2 : TarHeader) (hs : h.Sized)
    (he : h.assign_permission_encoding_meta = some h2) : h2.Sized := by
  rw [assign_meta_some h hs] at he
  obtain ⟨e1, e2, e3, e4, e5, e6, e7, e8, e9, e10, e11, e12, e13, e14, e15, e16⟩ := hs
  injection he with he
  subst he
  refine ⟨e1, by rfl, by rfl, by rfl, e5, by rfl, e7, e8, by rfl, by rfl, ?_, ?_,
    e13, e14, e15, e16⟩
  · show ([110, 111, 98, 111, 100, 121, 0] ++ h.uname.drop 7).length = 32
    rw [List.length_append, List.length_drop, e11]
    rfl
  · show ([110, 111, 98, 111, 100, 121, 0] ++ h.gname.drop 7).length = 32
    rw [List.length_append, List.length_drop, e12]
    rfl

theorem assign_checksum_Sized (h h2 : TarHeader) (hs : h.Sized)
    (he : h.assign_checksum = some h2) : h2.Sized := by
  simp only [TarHeader.assign_checksum, Option.bind_eq_bind] at he
  rcases Option.bind_eq_some.mp he with ⟨ck, hck, hsome⟩
  have hl := copyFrom_length _ _ _ hck
  injection hsome with hsome
  subst hsome
  obtain ⟨e1, e2, e3, e4, e5, e6, e7, e8, e9, e10, e11, e12, e13, e14, e15, e16⟩ := hs
  refine ⟨e1, e2, e3, e4, e5, e6, ?_, e8, e9, e10, e11, e12, e13, e14, e15, e16⟩
  show ck.length = 8
  rw [hl]
  simp [e7]

theorem devSteps_Sized (h hend : TarHeader) (dmaj dmin : Nat) (hs : h.Sized)
    (he : (do
      let h2 ← (writeSlice h.devmajor 0 (digitsBase 8 dmaj ++ [0])).map
        (fun d => { h with devmajor := d })
      let h3 ← (writeSlice h2.devminor 0 (digitsBase 8 dmin ++ [0])).map
        (fun d => { h2 with devminor := d })
      some h3 : Option TarHeader) = some hend) : hend.Sized := by
  rcases Option.bind_eq_some.mp he with ⟨h2, he2, he'⟩
  rcases Option.map_eq_some'.mp he2 with ⟨d1, hd1, rfl⟩
  rcases Option.bind_eq_some.mp he' with ⟨h3, he3, he''⟩
  rcases Option.map_eq_some'.mp he3 with ⟨d2, hd2, rfl⟩
  injection he'' with hh
  subst hh
  obtain ⟨e1, e2, e3, e4, e5, e6, e7, e8, e9, e10, e11, e12, e13, e14, e15, e16⟩ := hs
  have hl1 := writeSlice_length _ _ _ _ hd1
  have hl2 := writeSlice_length _ _ _ _ hd2
  exact ⟨e1, e2, e3, e4, e5, e6, e7, e8, e9, e10, e11, e12, hl1.trans e13,
    hl2.trans e14, e15, e16⟩

theorem gnameChain_Sized (h hend : TarHeader) (gn? : Option (List Nat))
    (dmaj dmin : Nat) (hs : h.Sized)
    (he : (do
      let hg ← match gn? with
        | some gn =>
          if gn.length < h.gname.length - 1 then do
            let g ← writeSlice h.gname 0 gn
            let g ← writeSlice g gn.length [0]
            pure { h with gname := g }
          else none
        | none => pure h
      let h2 ← (writeSlice hg.devmajor 0 (digitsBase 8 dmaj ++ [0])).map
        (fun d => { hg with devmajor := d })
      let h3 ← (writeSlice h2.devminor 0 (digitsBase 8 dmin ++ [0])).map
        (fun d => { h2 with devminor := d })
      some h3 : Option TarHeader) = some hend) : hend.Sized := by
  rcases hgn : gn? with _ | gn <;> subst hgn <;> simp only [] at he
  · exact devSteps_Sized h hend dmaj dmin hs he
  · split at he
    · rcases Option.bind_eq_some.mp he with ⟨g1, hg1, he'⟩
      rcases Option.bind_eq_some.mp he' with ⟨g2, hg2, he''⟩
      rcases Option.bind_eq_some.mp he'' with ⟨y, hy, he3⟩
      injection hy with hy
      subst hy
      obtain ⟨e1, e2, e3, e4, e5, e6, e7, e8, e9, e10, e11, e12, e13, e14, e15, e16⟩ := hs
      have hl1 := writeSlice_length _ _ _ _ hg1
      have hl2 := writeSlice_length _ _ _ _ hg2
      exact devSteps_Sized { h with gname := g2 } hend dmaj dmin
        ⟨e1, e2, e3, e4, e5, e6, e7, e8, e9, e10, e11,
          hl2.trans (hl1.trans e12), e13, e14, e15, e16⟩ he3
    · exact absurd he (by simp)

theorem unameChain_Sized (h hend : TarHeader) (un? gn? : Option (List Nat))
    (dmaj dmin : Nat) (hs : h.Sized)
    (he : (do
      let hu ← match un? with
        | some un =>
          if un.length < h.uname.length - 1 then do
            let u ← writeSlice h.uname 0 un
            let u ← writeSlice u un.length [0]
            pure { h with uname := u }
          else none
        | none => pure h
      let hg ← match gn? with
        | some gn =>
          if gn.length < hu.gname.length - 1 then do
            let g ← writeSlice hu.gname 0 gn
            let g ← writeSlice g gn.length [0]
            pure { hu with gname := g }
          else none
        | none => pure hu
      let h2 ← (writeSlice hg.devmajor 0 (digitsBase 8 dmaj ++ [0])).map
        (fun d => { hg with devmajor := d })
      let h3 ← (writeSlice h2.devminor 0 (digitsBase 8 dmin ++ [0])).map
        (fun d => { h2 with devminor := d })
      some h3 : Option TarHeader) = some hend) : hend.Sized := by
  rcases hun : un? with _ | un <;> subst hun <;> simp only [] at he
  · exact gnameChain_Sized h hend gn? dmaj dmin hs he
  · split at he
    · rcases Option.bind_eq_some.mp he with ⟨u1, hu1, he'⟩
      rcases Option.bind_eq_some.mp he' with ⟨u2, hu2, he''⟩
      rcases Option.bind_eq_some.mp he'' with ⟨y, hy, he3⟩
      injection hy with hy
      subst hy
      obtain ⟨e1, e2, e3, e4, e5, e6, e7, e8, e9, e10, e11, e12, e13, e14, e15, e16⟩ := hs
      have hl1 := writeSlice_length _ _ _ _ hu1
      have hl2 := writeSlice_length _ _ _ _ hu2
      exact gnameChain_Sized { h with uname := u2 } hend gn? dmaj dmin
        ⟨e1, e2, e3, e4, e5, e6, e7, e8, e9, e10,
          hl2.trans (hl1.trans e11), e12, e13, e14, e15, e16⟩ he3
    · exact absurd he (by simp)

theorem assign_attributes_Sized (h0 : TarHeader) (a : EntryAttributes)
    (hend : TarHeader) (hs : h0.Sized)
    (he : h0.assign_attributes a = some hend) : hend.Sized := by
  obtain ⟨mt?, un?, gn?, dmaj, dmin⟩ := a
  simp only [TarHeader.assign_attributes] at he
  rcases hmt : mt? with _ | mt <;> subst hmt <;> simp only [] at he
  · exact unameChain_Sized h0 hend un? gn? dmaj dmin hs he
  · rcases Option.bind_eq_some.mp he with ⟨h1, he1, he'⟩
    rcases Option.map_eq_some'.mp he1 with ⟨m, hcf, rfl⟩
    have hl := copyFrom_length _ _ _ hcf
    obtain ⟨e1, e2, e3, e4, e5, e6, e7, e8, e9, e10, e11, e12, e13, e14, e15, e16⟩ := hs
    exact unameChain_Sized { h0 with mtime := m } hend un? gn? dmaj dmin
      ⟨e1, e2, e3, e4, e5, hl.trans e6, e7, e8, e9, e10, e11, e12, e13, e14,
        e15, e16⟩ he'


theorem mkEscapeExtensionHeader_Sized (s : List Nat) (t : TarHeader)
    (he : mkEscapeExtensionHeader s = some t) : t.Sized := by
  simp only [mkEscapeExtensionHeader] at he
  rcases Option.bind_eq_some.mp he with ⟨n, hn, he1⟩
  rcases Option.bind_eq_some.mp he1 with ⟨t2, ht2, he2⟩
  rcases Option.bind_eq_some.mp he2 with ⟨t3, ht3, he3⟩
  rcases Option.bind_eq_some.mp he3 with ⟨p, hp, he4⟩
  injection he4 with he4
  subst he4
  have hnl := writeSlice_length _ _ _ _ hn
  have hs1 : TarHeader.Sized { TarHeader.EMPTY with name := n, typeflag := 120 } := by
    obtain ⟨e1, e2, e3, e4, e5, e6, e7, e8, e9, e10, e11, e12, e13, e14, e15, e16⟩ :=
      EMPTY_Sized
    exact ⟨hnl.trans e1, e2, e3, e4, e5, e6, e7, e8, e9, e10, e11, e12, e13, e14,
      e15, e16⟩
  have hs2 := assign_size_Sized _ _ _ hs1 ht2
  have hs3 := assign_meta_Sized _ _ hs2 ht3
  have hpl := writeSlice_length _ _ _ _ hp
  obtain ⟨e1, e2, e3, e4, e5, e6, e7, e8, e9, e10, e11, e12, e13, e14, e15, e16⟩ := hs3
  exact ⟨e1, e2, e3, e4, e5, e6, e7, e8, e9, e10, e11, e12, e13, e14,
    hpl.trans e15, e16⟩

theorem mkEscapeFileHeader_Sized (q : List Nat) (n : Nat) (f : TarHeader)
    (he : mkEscapeFileHeader q n = some f) : f.Sized := by
  simp only [mkEscapeFileHeader] at he
  rcases Option.bind_eq_some.mp he with ⟨n1, hn1, he1⟩
  rcases Option.bind_eq_some.mp he1 with ⟨cl, hcl, he2⟩
  rcases Option.bind_eq_some.mp he2 with ⟨ci, hci, he3⟩
  rcases Option.bind_eq_some.mp he3 with ⟨n2, hn2, he4⟩
  rcases Option.bind_eq_some.mp he4 with ⟨p1, hp1, he5⟩
  rcases Option.bind_eq_some.mp he5 with ⟨f2, hf2, he6⟩
  have h1 := writeSlice_length _ _ _ _ hn1
  have h2 := writeSlice_length _ _ _ _ hn2
  have h3 := writeSlice_length _ _ _ _ hp1
  have hs1 : TarHeader.Sized { TarHeader.EMPTY with name := n2, pfix := p1 } := by
    obtain ⟨e1, e2, e3, e4, e5, e6, e7, e8, e9, e10, e11, e12, e13, e14, e15, e16⟩ :=
      EMPTY_Sized
    exact ⟨h2.trans (h1.trans e1), e2, e3, e4, e5, e6, e7, e8, e9, e10, e11, e12,
      e13, e14, h3.trans e15, e16⟩
  have hs2 := assign_size_Sized _ _ _ hs1 hf2
  exact assign_meta_Sized _ _ hs2 he6

theorem continue_qualified_shape (e : TarEngine) (q data : List Nat)
    (hook : TarHeader → TarHeader → Option (TarHeader × TarHeader))
    (hhook : ∀ t f t1 f1, t.Sized → f.Sized → hook t f = some (t1, f1) →
      t1.Sized ∧ f1.Sized)
    (ed : EscapedData) (e2 : TarEngine)
    (he : e.continue_qualified q data hook = some (ed, e2)) :
    ed.padding.length = roundUp512 e.len - e.len ∧
    ed.data = data ∧
    ed.bytes.length = (roundUp512 e.len - e.len) + 1024 + data.length ∧
    e2 = ⟨roundUp512 e.len + 1024 + data.length, true⟩ := by
  simp only [TarEngine.continue_qualified, TarEngine.pad_to_fit] at he
  rcases Option.bind_eq_some.mp he with ⟨t, ht, he1⟩
  rcases Option.bind_eq_some.mp he1 with ⟨f, hf, he2⟩
  rcases Option.bind_eq_some.mp he2 with ⟨tf, htf, he3⟩
  obtain ⟨t1, f1⟩ := tf
  simp only [] at he3
  rcases Option.bind_eq_some.mp he3 with ⟨t2, ht2, he4⟩
  rcases Option.bind_eq_some.mp he4 with ⟨f2, hf2, he5⟩
  injection he5 with he5
  injection he5 with he5a he5b
  subst he5a
  subst he5b
  have hts := mkEscapeExtensionHeader_Sized _ t ht
  have hfs := mkEscapeFileHeader_Sized _ _ f hf
  obtain ⟨ht1s, hf1s⟩ := hhook t f t1 f1 hts hfs htf
  have ht2s := assign_checksum_Sized _ _ ht1s ht2
  have hf2s := assign_checksum_Sized _ _ hf1s hf2
  have hge := roundUp512_ge e.len
  refine ⟨by rw [List.length_replicate], rfl, ?_, ?_⟩
  · show (List.replicate (roundUp512 e.len - e.len) 0 ++ t2.asBytes ++ f2.asBytes ++
      data).length = roundUp512 e.len - e.len + 1024 + data.length
    rw [List.length_append, List.length_append, List.length_append,
      List.length_replicate, TarHeader.asBytes_length t2 ht2s,
      TarHeader.asBytes_length f2 hf2s]
  · simp only [TarEngine.mk.injEq]
    exact ⟨by omega, trivial⟩

theorem emit_shape (it : TarItem) (e : TarEngine) (ed : EscapedData) (e2 : TarEngine)
    (he : it.emit e = some (ed, e2)) :
    ed.padding.length = roundUp512 e.len - e.len ∧
    ed.bytes.length = (roundUp512 e.len - e.len) + 1024 + ed.data.length ∧
    e2 = ⟨roundUp512 e.len + 1024 + ed.data.length, true⟩ ∧
    (∀ ent, it = .entry ent → ed.data.length = 4 * ((ent.data.length + 2) / 3)) ∧
    (∀ ext, it = .external ext → ed.data.length = 0) := by
  cases it with
  | entry ent =>
    simp only [TarItem.emit, TarEngine.escaped_base64] at he
    have hhk : ∀ (t f t1 f1 : TarHeader), t.Sized → f.Sized →
        (f.assign_attributes ent.attributes).map (fun f1 => (t, f1)) = some (t1, f1) →
        t1.Sized ∧ f1.Sized := by
      intro t f t1 f1 ts fs hmap
      rcases Option.map_eq_some'.mp hmap with ⟨f1', ha, hpair⟩
      injection hpair with h1 h2
      subst h1
      subst h2
      exact ⟨ts, assign_attributes_Sized _ _ _ fs ha⟩
    obtain ⟨hp, hd, hb, he2⟩ := continue_qualified_shape e ent.name
      (base64Encode ent.data) _ hhk ed e2 he
    refine ⟨hp, by rw [hd]; exact hb, by rw [hd]; exact he2, ?_, ?_⟩
    · intro ent' heq
      injection heq with heq
      subst heq
      rw [hd, base64Encode_length]
    · intro ext' heq
      exact absurd heq (by intro h; cases h)
  | external ext =>
    simp only [TarItem.emit, TarEngine.escaped_external] at he
    have hhk : ∀ (t f t1 f1 : TarHeader), t.Sized → f.Sized →
        (do
          let realsize_off := 452 - 345
          let f1 ← f.assign_attributes ext.attributes
          let ln ← writeSlice f1.linkname 1 ext.reference
          let f2 : TarHeader := { f1 with linkname := ln, typeflag := 83 }
          let rs := fmtOct 11 ext.realsize
          if rs.length = 11 then
            (writeSlice f2.pfix realsize_off rs).map (fun p => (t, { f2 with pfix := p }))
          else none) = some (t1, f1) →
        t1.Sized ∧ f1.Sized := by
      intro t f t1 f1 ts fs hh
      rcases Option.bind_eq_some.mp hh with ⟨fa, hfa, hh1⟩
      rcases Option.bind_eq_some.mp hh1 with ⟨ln, hln, hh2⟩
      have hfas := assign_attributes_Sized _ _ _ fs hfa
      have hlnl := writeSlice_length _ _ _ _ hln
      simp only [] at hh2
      split at hh2
      · rcases Option.map_eq_some'.mp hh2 with ⟨p, hp, hpair⟩
        injection hpair with h1 h2
        subst h1
        subst h2
        have hpl := writeSlice_length _ _ _ _ hp
        obtain ⟨e1, e2, e3, e4, e5, e6, e7, e8, e9, e10, e11, e12, e13, e14, e15, e16⟩ :=
          hfas
        exact ⟨ts, e1, e2, e3, e4, e5, e6, e7, hlnl.trans e8, e9, e10, e11, e12,
          e13, e14, hpl.trans e15, e16⟩
      · exact absurd hh2 (by simp)
    obtain ⟨hp, hd, hb, he2⟩ := continue_qualified_shape e ext.name [] _ hhk ed e2 he
    refine ⟨hp, by rw [hd]; exact hb, by rw [hd]; exact he2, ?_, ?_⟩
    · intro ent' heq
      exact absurd heq (by intro h; cases h)
    · intro ext' heq
      rw [hd]
      rfl

theorem escaped_eof_padding (e : TarEngine) :
    (TarEngine.escaped_eof e).1.padding = List.replicate (roundUp512 e.len - e.len) 0 := by
  simp only [TarEngine.escaped_eof, TarEngine.pad_to_fit]
  split <;> rfl

theorem start_of_file_shape (e0 : TarEngine) (hh : List Nat) (off : Nat)
    (ini : InitialEscape) (e1 : TarEngine)
    (he : TarEngine.start_of_file e0 hh off = some (ini, e1)) :
    ini.header.Sized ∧ ini.consumed = hh.length ∧ hh.length ≤ off ∧
    e1 = { e0 with len := e0.len + 512 + ini.extra.length + (off - hh.length) } := by
  simp only [TarEngine.start_of_file] at he
  split at he
  · rcases Option.bind_eq_some.mp he with ⟨n1, hn1, he1⟩
    rcases Option.bind_eq_some.mp he1 with ⟨n2, hn2, he2⟩
    rcases Option.bind_eq_some.mp he2 with ⟨tl, htl, he3⟩
    rcases Option.bind_eq_some.mp he3 with ⟨t2, ht2, he4⟩
    rcases Option.bind_eq_some.mp he4 with ⟨t3, ht3, he5⟩
    rcases Option.bind_eq_some.mp he5 with ⟨t4, ht4, he6⟩
    injection he6 with he6
    injection he6 with he6a he6b
    subst he6a
    subst he6b
    unfold checkedSub at htl
    split at htl
    · injection htl with htl
      subst htl
      have h1 := writeSlice_length _ _ _ _ hn1
      have h2 := writeSlice_length _ _ _ _ hn2
      have hs1 : TarHeader.Sized { TarHeader.EMPTY with name := n2, typeflag := 120 } := by
        obtain ⟨e1, e2, e3, e4, e5, e6, e7, e8, e9, e10, e11, e12, e13, e14, e15, e16⟩ :=
          EMPTY_Sized
        exact ⟨h2.trans (h1.trans e1), e2, e3, e4, e5, e6, e7, e8, e9, e10, e11,
          e12, e13, e14, e15, e16⟩
      have hs2 := assign_size_Sized _ _ _ hs1 ht2
      have hs3 := assign_meta_Sized _ _ hs2 ht3
      have hs4 := assign_checksum_Sized _ _ hs3 ht4
      exact ⟨hs4, rfl, by assumption, rfl⟩
    · exact absurd htl (by simp)
  · exact absurd he (by simp)


theorem emitItems_shape : ∀ (items : List TarItem) (e : TarEngine) (pos : Nat)
    (out : List Nat × List Nat × TarEngine),
    emitItems e pos items = some out → pos = e.len →
    (∀ o ∈ out.2.1, o % 512 = 0) ∧ out.2.2.len = pos + out.1.length
  | [], e, pos, out, h, hp => by
    simp only [emitItems] at h
    injection h with h
    subst h
    refine ⟨?_, ?_⟩
    · intro o ho
      exact absurd ho (List.not_mem_nil o)
    · simp [hp]
  | it :: rest, e, pos, out, h, hp => by
    simp only [emitItems] at h
    rcases Option.bind_eq_some.mp h with ⟨⟨ed, e2⟩, hemit, h1⟩
    simp only [] at h1
    rcases Option.bind_eq_some.mp h1 with ⟨⟨s, offs, e3⟩, hrest, h2⟩
    simp only [] at h2
    injection h2 with h2
    subst h2
    obtain ⟨hpad, hbytes, he2, _, _⟩ := emit_shape it e ed e2 hemit
    have hge := roundUp512_ge e.len
    have ih := emitItems_shape rest e2
      (pos + ed.padding.length + 1024 + ed.data.length) ⟨s, offs, e3⟩ hrest
      (by simp only [he2]; rw [hpad, hp]; omega)
    refine ⟨?_, ?_⟩
    · intro o ho
      simp only [List.mem_cons] at ho
      rcases ho with rfl | rfl | ho
      · have hh : pos + ed.padding.length = roundUp512 e.len := by
          rw [hpad, hp]
          omega
        rw [hh, roundUp512_mod]
      · have hh : pos + ed.padding.length = roundUp512 e.len := by
          rw [hpad, hp]
          omega
        rw [hh]
        have hm := roundUp512_mod e.len
        omega
      · exact ih.1 o ho
    · have h3 := ih.2
      simp only [] at h3 ⊢
      rw [List.length_append, hbytes]
      omega

set_option maxRecDepth 2000 in
/-- C2: in every artifact assembled by the builder (`start_of_file`, any
sequence of `escaped_base64`/`escaped_external` emissions with their
returned padding, then `escaped_eof`), every 512-byte tar header starts at
a byte offset that is a multiple of 512, counted from the artifact's first
byte; the hypothesis pins the raw HTML tail the builder copies between the
initial block and the first emission to the length the initial header
advertised (`source[consumed..insert.start]`). -/
theorem c2_header_alignment (html_head : List Nat) (entry_offset : Nat)
    (rawTail : List Nat) (items : List TarItem) (out : List Nat × List Nat)
    (htail : rawTail.length = entry_offset - html_head.length)
    (hb : buildArtifact html_head entry_offset rawTail items = some out) :
    ∀ o ∈ out.2, o % 512 = 0 := by
  simp only [buildArtifact] at hb
  rcases Option.bind_eq_some.mp hb with ⟨⟨ini, e1⟩, hsof, hb1⟩
  simp only [] at hb1
  rcases Option.bind_eq_some.mp hb1 with ⟨⟨body, offs, e2⟩, hemit, hb2⟩
  simp only [] at hb2
  rcases hEof : e2.escaped_eof with ⟨eofd, e3x⟩
  rw [hEof] at hb2
  simp only [] at hb2
  injection hb2 with hb2
  subst hb2
  obtain ⟨hS, hcons, hle, he1⟩ := start_of_file_shape _ _ _ _ _ hsof
  have hpre : (ini.header.asBytes ++ ini.extra ++ rawTail).length
      = 512 + ini.extra.length + rawTail.length := by
    rw [List.length_append, List.length_append, TarHeader.asBytes_length _ hS]
  obtain ⟨hoffs, hlen⟩ := emitItems_shape items e1
    (ini.header.asBytes ++ ini.extra ++ rawTail).length ⟨body, offs, e2⟩ hemit
    (by simp only [he1]; rw [hpre, htail]; try omega)
  simp only [] at hoffs hlen
  have hep := escaped_eof_padding e2
  rw [hEof] at hep
  simp only [] at hep
  have hge := roundUp512_ge e2.len
  have heofPos : (ini.header.asBytes ++ ini.extra ++ rawTail).length + body.length
      + eofd.padding.length = roundUp512 e2.len := by
    rw [hep, List.length_replicate]
    omega
  intro o ho
  simp only [] at ho
  rcases List.mem_cons.mp ho with rfl | ho1
  · rfl
  rcases List.mem_append.mp ho1 with ho2 | ho3
  · exact hoffs o ho2
  rcases List.mem_cons.mp ho3 with rfl | ho4
  · rw [heofPos, roundUp512_mod]
  rcases List.mem_cons.mp ho4 with rfl | ho5
  · rw [heofPos]
    have hm := roundUp512_mod e2.len
    omega
  · exact absurd ho5 (List.not_mem_nil o)

theorem emitItems_det (l1 l2 : List Entry)
    (hf : List.Forall₂ (fun a b => a.data.length = b.data.length) l1 l2) :
    ∀ (e : TarEngine) (pos : Nat) (o1 o2 : List Nat × List Nat × TarEngine),
    emitItems e pos (l1.map TarItem.entry) = some o1 →
    emitItems e pos (l2.map TarItem.entry) = some o2 →
    o1.2.1 = o2.2.1 ∧ o1.1.length = o2.1.length ∧ o1.2.2 = o2.2.2 := by
  induction hf with
  | nil =>
    intro e pos o1 o2 h1 h2
    simp only [List.map_nil, emitItems] at h1 h2
    injection h1 with h1
    injection h2 with h2
    subst h1
    subst h2
    exact ⟨rfl, rfl, rfl⟩
  | cons hab hrest ih =>
    intro e pos o1 o2 h1 h2
    simp only [List.map_cons, emitItems] at h1 h2
    rcases Option.bind_eq_some.mp h1 with ⟨⟨ed1, e21⟩, hm1, h1'⟩
    simp only [] at h1'
    rcases Option.bind_eq_some.mp h1' with ⟨⟨s1, offs1, e31⟩, hr1, h1''⟩
    simp only [] at h1''
    injection h1'' with h1''
    subst h1''
    rcases Option.bind_eq_some.mp h2 with ⟨⟨ed2, e22⟩, hm2, h2'⟩
    simp only [] at h2'
    rcases Option.bind_eq_some.mp h2' with ⟨⟨s2, offs2, e32⟩, hr2, h2''⟩
    simp only [] at h2''
    injection h2'' with h2''
    subst h2''
    obtain ⟨hp1, hb1, he21, hdl1, _⟩ := emit_shape _ e ed1 e21 hm1
    obtain ⟨hp2, hb2, he22, hdl2, _⟩ := emit_shape _ e ed2 e22 hm2
    have hd1 := hdl1 _ rfl
    have hd2 := hdl2 _ rfl
    have hdd : ed1.data.length = ed2.data.length := by
      rw [hd1, hd2, hab]
    have hee : e21 = e22 := by
      rw [he21, he22, hdd]
    have hpos : pos + ed1.padding.length + 1024 + ed1.data.length
        = pos + ed2.padding.length + 1024 + ed2.data.length := by
      rw [hp1, hp2, hdd]
    rw [← hee, ← hpos] at hr2
    obtain ⟨ho, hs, he3⟩ := ih e21
      (pos + ed1.padding.length + 1024 + ed1.data.length)
      ⟨s1, offs1, e31⟩ ⟨s2, offs2, e32⟩ hr1 hr2
    simp only [] at ho hs he3
    refine ⟨?_, ?_, he3⟩
    · simp only []
      rw [hp1, hp2, ho]
    · simp only []
      rw [List.length_append, List.length_append, hb1, hb2, hdd, hs]

/-- C9: header offsets are deterministic in the entry sizes.  Two runs of
the builder from identical `start_of_file` inputs and identical raw tails,
over entry sequences whose corresponding payloads have equal byte lengths,
place every emitted header (and the closing zero-header pair) at identical
byte offsets, independently of the payload contents and names. -/
theorem c9_offset_determinism (html_head : List Nat) (entry_offset : Nat)
    (rawTail : List Nat) (l1 l2 : List Entry)
    (hf : List.Forall₂ (fun a b => a.data.length = b.data.length) l1 l2)
    (o1 o2 : List Nat × List Nat)
    (h1 : buildArtifact html_head entry_offset rawTail (l1.map TarItem.entry) = some o1)
    (h2 : buildArtifact html_head entry_offset rawTail (l2.map TarItem.entry) = some o2) :
    o1.2 = o2.2 := by
  simp only [buildArtifact] at h1 h2
  rcases Option.bind_eq_some.mp h1 with ⟨⟨ini1, e11⟩, hs1, h1'⟩
  rcases Option.bind_eq_some.mp h2 with ⟨⟨ini2, e12⟩, hs2, h2'⟩
  rw [hs1] at hs2
  injection hs2 with hs2
  injection hs2 with hsa hsb
  subst hsa
  subst hsb
  simp only [] at h1' h2'
  rcases Option.bind_eq_some.mp h1' with ⟨⟨b1, offs1, e21⟩, he1, h1''⟩
  rcases Option.bind_eq_some.mp h2' with ⟨⟨b2, offs2, e22⟩, he2, h2''⟩
  simp only [] at h1'' h2''
  obtain ⟨ho, hbl, hee⟩ := emitItems_det l1 l2 hf e11
    (ini1.header.asBytes ++ ini1.extra ++ rawTail).length
    ⟨b1, offs1, e21⟩ ⟨b2, offs2, e22⟩ he1 he2
  simp only [] at ho hbl hee
  subst hee
  rcases hEof : e21.escaped_eof with ⟨eofd, e3x⟩
  rw [hEof] at h1'' h2''
  simp only [] at h1'' h2''
  injection h1'' with h1''
  injection h2'' with h2''
  subst h1''
  subst h2''
  show (0 : Nat) :: offs1 ++ _ = (0 : Nat) :: offs2 ++ _
  rw [ho, hbl]

set_option maxRecDepth 10000 in
theorem c2_header_alignment_witness :
    c2Tail.length = 26 - cHead.length ∧
    (buildArtifact cHead 26 c2Tail c2Items).map
      (fun out => decide (∀ o ∈ out.2, o % 512 = 0)) = some true := by
  refine ⟨by decide, ?_⟩
  rcases hb : buildArtifact cHead 26 c2Tail c2Items with _ | out
  · exact absurd hb (by decide)
  · have h := c2_header_alignment cHead 26 c2Tail c2Items out (by decide) hb
    simp only [Option.map_some']
    rw [decide_eq_true h]

set_option maxRecDepth 10000 in
theorem c9_offset_determinism_witness :
    List.Forall₂ (fun a b => a.data.length = b.data.length) c9A c9B ∧
    (buildArtifact cHead 26 c2Tail (c9A.map TarItem.entry)).map Prod.snd =
    (buildArtifact cHead 26 c2Tail (c9B.map TarItem.entry)).map Prod.snd := by
  refine ⟨List.Forall₂.cons (by decide) List.Forall₂.nil, ?_⟩
  rcases h1 : buildArtifact cHead 26 c2Tail (c9A.map TarItem.entry) with _ | o1
  · exact absurd h1 (by decide)
  rcases h2 : buildArtifact cHead 26 c2Tail (c9B.map TarItem.entry) with _ | o2
  · exact absurd h2 (by decide)
  have h := c9_offset_determinism cHead 26 c2Tail c9A c9B
    (List.Forall₂.cons (by decide) List.Forall₂.nil) o1 o2 h1 h2
  simp only [Option.map_some']
  rw [h]


theorem c10_name_placement_witness :
    (0 : Nat) < 8 ^ 11 ∧
    ((mkEscapeFileHeader (List.replicate 89 97) 0).isSome = true ↔
      (List.replicate 89 97 : List Nat).length ≤ 89) ∧
    validAttributeName c10Name = true ∧ 90 ≤ c10Name.length ∧
    TarEngine.escaped_base64 ⟨0, false⟩ ⟨c10Name, [], .default⟩ = none :=
  ⟨by decide, c10_name_placement.1 (List.replicate 89 97) 0 (by decide),
   by decide, by decide,
   c10_name_placement.2 ⟨0, false⟩ ⟨c10Name, [], .default⟩ (by decide) (by decide)⟩

/-! ## C1: encode/decode round trip -/

theorem octValFrom_lt (ds : List Nat) : ∀ acc : Nat, (∀ d ∈ ds, d - 48 < 8) →
    octValFrom acc ds < (acc + 1) * 8 ^ ds.length := by
  induction ds with
  | nil =>
    intro acc _
    simp [octValFrom]
  | cons c t ih =>
    intro acc hd
    rw [octValFrom_cons]
    have h1 := ih (acc * 8 + (c - 48)) (fun d hdm => hd d (List.mem_cons_of_mem c hdm))
    have h2 : c - 48 < 8 := hd c (List.mem_cons_self c t)
    calc octValFrom (acc * 8 + (c - 48)) t
        < (acc * 8 + (c - 48) + 1) * 8 ^ t.length := h1
      _ ≤ ((acc + 1) * 8) * 8 ^ t.length := by
          have : acc * 8 + (c - 48) + 1 ≤ (acc + 1) * 8 := by omega
          exact Nat.mul_le_mul_right _ this
      _ = (acc + 1) * 8 ^ (c :: t).length := by
          rw [List.length_cons, pow_succ]
          ring

theorem fmtOct_length_inv (n : Nat) (h : (fmtOct 11 n).length = 11) : n < 8 ^ 11 := by
  have hdig : ∀ d ∈ digitsBase 8 n, d - 48 < 8 := by
    intro d hd
    have := digitsBase_bounds 8 n (by norm_num) d hd
    omega
  have hval := digitsBase8_val n
  have hlt := octValFrom_lt (digitsBase 8 n) 0 hdig
  rw [hval] at hlt
  have hlen : (digitsBase 8 n).length ≤ 11 := by
    rw [fmtOct, fmtPad, List.length_append, List.length_replicate] at h
    omega
  calc n < (0 + 1) * 8 ^ (digitsBase 8 n).length := hlt
    _ ≤ 8 ^ 11 := by
        rw [Nat.one_mul]
        exact Nat.pow_le_pow_right (by norm_num) hlen

theorem assign_size_inv (h h' : TarHeader) (n : Nat) (hsl : h.size.length = 12)
    (he : h.assign_size n = some h') :
    n < 8 ^ 11 ∧ h' = { h with size := fmtOct 11 n ++ [0] } := by
  unfold TarHeader.assign_size at he
  rcases Option.map_eq_some'.mp he with ⟨s, hcf, rfl⟩
  unfold copyFrom at hcf
  split at hcf
  next heq =>
    injection hcf with hcf
    subst hcf
    rw [hsl, List.length_append] at heq
    exact ⟨fmtOct_length_inv n (by simpa using heq), rfl⟩
  next => exact absurd hcf (by simp)

theorem assign_checksum_inv (h h' : TarHeader)
    (he : h.assign_checksum = some h') : ∃ ck, h' = { h with chksum := ck } := by
  simp only [TarHeader.assign_checksum, Option.bind_eq_bind] at he
  rcases Option.bind_eq_some.mp he with ⟨ck, hck, hsome⟩
  injection hsome with hsome
  subst hsome
  exact ⟨ck, rfl⟩

theorem parse_size_congr (h h' : TarHeader) (hs : h.size = h'.size) :
    h.parse_size = h'.parse_size := by
  unfold TarHeader.parse_size
  rw [hs]

/-- The `Entry` arm of `next_double_header`, as its own equation. -/
theorem next_double_header_entry (d0 : Nat) (data : List Nat) (s : Nat)
    (hlen : roundUp512 d0 + 1024 ≤ data.length)
    (hpfx : endsWith (TarHeader.ofBytes ((data.drop (roundUp512 d0)).take 512)).pfix
      NOSCRIPT_CLOSE = false)
    (hnz : ¬((TarHeader.ofBytes ((data.drop (roundUp512 d0)).take 512)).asBytes =
        TarHeader.EMPTY.asBytes ∧
      (TarHeader.ofBytes (((data.drop (roundUp512 d0)).drop 512).take 512)).asBytes =
        TarHeader.EMPTY.asBytes))
    (hsz : (TarHeader.ofBytes (((data.drop (roundUp512 d0)).drop 512).take 512)).parse_size =
      some s)
    (hty : (TarHeader.ofBytes ((data.drop (roundUp512 d0)).take 512)).typeflag = 120)
    (hsz0 : (TarHeader.ofBytes ((data.drop (roundUp512 d0)).take 512)).parse_size = some 0) :
    TarDecompiler.next_double_header ⟨d0⟩ data =
      some (.ok (.Entry (TarHeader.ofBytes (((data.drop (roundUp512 d0)).drop 512).take 512))
        (roundUp512 d0 + 1024, roundUp512 d0 + 1024 + s),
        ⟨roundUp512 d0 + 1024 + s⟩)) := by
  have hp : ¬ data.length < roundUp512 d0 := by omega
  have hr1 : ¬ (data.drop (roundUp512 d0)).length < 512 := by
    simp [List.length_drop]
    omega
  have hr2 : ¬ (data.drop (roundUp512 d0)).length < 1024 := by
    simp [List.length_drop]
    omega
  simp only [TarDecompiler.next_double_header, TarDecompiler.pad_to_fit]
  rw [if_neg hp, if_neg hr1, if_neg (by rw [hpfx]; simp), if_neg hr2, hsz]
  simp only []
  rw [if_neg hnz, if_neg (by simp [hty]), hsz0]
  simp only []
  rw [if_neg (by simp)]

set_option maxRecDepth 10000 in
theorem extOk_start :
    (mkEscapeExtensionHeader START_NAME).map (fun t => decide (extOk t)) = some true := by
  decide

set_option maxRecDepth 10000 in
theorem extOk_cont :
    (mkEscapeExtensionHeader CONT_NAME).map (fun t => decide (extOk t)) = some true := by
  decide

theorem extOk_of (s : List Nat) (t : TarHeader)
    (hs : s = START_NAME ∨ s = CONT_NAME)
    (he : mkEscapeExtensionHeader s = some t) : extOk t := by
  rcases hs with rfl | rfl
  · have h := extOk_start
    rw [he] at h
    simp only [Option.map_some', Option.some.injEq] at h
    exact of_decide_eq_true h
  · have h := extOk_cont
    rw [he] at h
    simp only [Option.map_some', Option.some.injEq] at h
    exact of_decide_eq_true h


set_option maxRecDepth 2000 in
theorem mkEscapeFileHeader_inv (q : List Nat) (dl : Nat) (f : TarHeader)
    (he : mkEscapeFileHeader q dl = some f) :
    q.length ≤ 89 ∧ dl < 8 ^ 11 ∧ f.Sized ∧ f.typeflag = 0 ∧
    f.size = fmtOct 11 dl ++ [0] ∧
    f.name = q ++ List.replicate (90 - q.length) 0 ++ ID_END_CONT := by
  have hS := mkEscapeFileHeader_Sized q dl f he
  have hIDl : (ID_END_CONT : List Nat).length = 10 := by decide
  have hEn : TarHeader.EMPTY.name = List.replicate 100 0 := rfl
  have hEnl : TarHeader.EMPTY.name.length = 100 := by decide
  simp only [mkEscapeFileHeader] at he
  rcases Option.bind_eq_some.mp he with ⟨n1, hn1, he1⟩
  rcases Option.bind_eq_some.mp he1 with ⟨cl, hcl, he2⟩
  rcases Option.bind_eq_some.mp he2 with ⟨ci, hci, he3⟩
  rcases Option.bind_eq_some.mp he3 with ⟨n2, hn2, he4⟩
  rcases Option.bind_eq_some.mp he4 with ⟨p1, hp1, he5⟩
  rcases Option.bind_eq_some.mp he5 with ⟨f2, hf2, he6⟩
  have hn1l := writeSlice_length _ _ _ _ hn1
  rw [hEnl] at hn1l
  have hn2l := writeSlice_length _ _ _ _ hn2
  have hp1l := writeSlice_length _ _ _ _ hp1
  -- the two checked subtractions pin the name length
  unfold checkedSub at hcl hci
  split at hcl
  case isTrue hc1 =>
    injection hcl with hcl
    split at hci
    case isTrue hc2 =>
      injection hci with hci
      subst hci
      subst hcl
      rw [hIDl] at hc2
      have hq89 : q.length ≤ 89 := by omega
      -- n1 explicitly
      unfold writeSlice at hn1
      rw [if_pos (by rw [hEnl]; omega)] at hn1
      injection hn1 with hn1
      subst hn1
      have hn1e : List.take 0 TarHeader.EMPTY.name ++ q ++
          List.drop (0 + q.length) TarHeader.EMPTY.name =
          q ++ List.replicate (100 - q.length) 0 := by
        rw [List.take_zero, List.nil_append, Nat.zero_add, hEn, List.drop_replicate]
      rw [hn1e] at hn2 hn1l
      -- n2 explicitly
      have hoff : q.length + 1 +
          ((q ++ List.replicate (100 - q.length) 0).length - q.length - 1 -
            ID_END_CONT.length) = 90 := by
        rw [hn1l, hIDl]
        omega
      rw [hoff] at hn2
      unfold writeSlice at hn2
      rw [if_pos (by rw [hn1l, hIDl]; try omega)] at hn2
      injection hn2 with hn2
      subst hn2
      have hn2e : (q ++ List.replicate (100 - q.length) 0).take 90 ++ ID_END_CONT ++
          (q ++ List.replicate (100 - q.length) 0).drop (90 + ID_END_CONT.length) =
          q ++ List.replicate (90 - q.length) 0 ++ ID_END_CONT := by
        rw [hIDl]
        rw [List.take_append_eq_append_take, List.take_of_length_le (by omega),
          List.take_replicate]
        rw [show min (90 - q.length) (100 - q.length) = 90 - q.length from by omega]
        rw [show (90 : Nat) + 10 = 100 from rfl]
        rw [List.drop_eq_nil_of_le (by rw [hn1l]; try omega), List.append_nil,
          List.append_assoc]
      -- size
      obtain ⟨hdl, hf2e⟩ := assign_size_inv _ _ dl (by rfl) hf2
      subst hf2e
      -- meta
      have hs1 : TarHeader.Sized { TarHeader.EMPTY with
          name := (q ++ List.replicate (100 - q.length) 0).take 90 ++ ID_END_CONT ++
            (q ++ List.replicate (100 - q.length) 0).drop (90 + ID_END_CONT.length),
          pfix := p1 } := by
        obtain ⟨e1, e2, e3, e4, e5, e6, e7, e8, e9, e10, e11, e12, e13, e14, e15, e16⟩ :=
          EMPTY_Sized
        refine ⟨?_, e2, e3, e4, e5, e6, e7, e8, e9, e10, e11, e12, e13, e14,
          ?_, e16⟩
        · show ((q ++ List.replicate (100 - q.length) 0).take 90 ++ ID_END_CONT ++
            (q ++ List.replicate (100 - q.length) 0).drop (90 + ID_END_CONT.length)).length
            = 100
          rw [hn2e]
          rw [List.length_append, List.length_append, List.length_replicate, hIDl]
          omega
        · show p1.length = 155
          rw [hp1l]
          decide
      have hs2 := assign_size_Sized _ dl _ hs1 (by
        exact hf2)
      rw [assign_meta_some _ hs2] at he6
      injection he6 with he6
      subst he6
      refine ⟨hq89, hdl, hS, rfl, rfl, ?_⟩
      show (q ++ List.replicate (100 - q.length) 0).take 90 ++ ID_END_CONT ++
          (q ++ List.replicate (100 - q.length) 0).drop (90 + ID_END_CONT.length) =
          q ++ List.replicate (90 - q.length) 0 ++ ID_END_CONT
      exact hn2e
    case isFalse => exact absurd hci (by simp)
  case isFalse => exact absurd hcl (by simp)


theorem c1_step (e : TarEngine) (n dta : List Nat) (ed : EscapedData) (e2 : TarEngine)
    (hnul : 0 ∉ n)
    (he : e.escaped_base64 ⟨n, dta, EntryAttributes.default⟩ = some (ed, e2)) :
    ed.padding = List.replicate (roundUp512 e.len - e.len) 0 ∧
    ed.data = base64Encode dta ∧
    ed.header.Sized ∧ ed.file.Sized ∧
    endsWith ed.header.pfix NOSCRIPT_CLOSE = false ∧
    ed.header.typeflag = 120 ∧
    ed.header.parse_size = some 0 ∧
    ed.file.typeflag = 0 ∧
    ed.file.parse_size = some (base64Encode dta).length ∧
    cstrUntilNul ed.file.name = some n ∧
    e2 = ⟨roundUp512 e.len + 1024 + (base64Encode dta).length, true⟩ := by
  simp only [TarEngine.escaped_base64, TarEngine.continue_qualified,
    TarEngine.pad_to_fit] at he
  rcases Option.bind_eq_some.mp he with ⟨t, ht, he1⟩
  rcases Option.bind_eq_some.mp he1 with ⟨f, hf, he2'⟩
  rcases Option.bind_eq_some.mp he2' with ⟨tf, htf, he3⟩
  obtain ⟨t1, f1⟩ := tf
  simp only [] at he3
  rcases Option.bind_eq_some.mp he3 with ⟨t2, ht2, he4⟩
  rcases Option.bind_eq_some.mp he4 with ⟨f2, hf2, he5⟩
  injection he5 with he5
  injection he5 with he5a he5b
  subst he5a
  subst he5b
  have hts : extOk t := extOk_of _ t (by split <;> simp) ht
  obtain ⟨htty, htps, htpfx, htS⟩ := hts
  obtain ⟨hq89, hdl, hfS, hfty, hfsz, hfname⟩ := mkEscapeFileHeader_inv _ _ _ hf
  rcases Option.map_eq_some'.mp htf with ⟨fa, hfa, hpair⟩
  injection hpair with hpa hpb
  subst hpa
  subst hpb
  have hfaS := assign_attributes_Sized f _ fa hfS hfa
  obtain ⟨_, _, _, _, _, _, _, _, _, _, _, _, e13S, e14S, _, _⟩ := hfS
  rw [assign_attributes_default f e13S e14S] at hfa
  injection hfa with hfa
  subst hfa
  obtain ⟨ckT, hTe⟩ := assign_checksum_inv _ _ ht2
  obtain ⟨ckF, hFe⟩ := assign_checksum_inv _ _ hf2
  subst hTe
  subst hFe
  have hge := roundUp512_ge e.len
  refine ⟨rfl, rfl, assign_checksum_Sized _ _ htS ht2,
    assign_checksum_Sized _ _ hfaS hf2, htpfx, htty,
    (parse_size_congr _ t rfl).trans htps, hfty,
    (parse_size_congr _ f rfl).trans (parse_size_fmtOct f _ hdl hfsz), ?_, ?_⟩
  · show cstrUntilNul f.name = some n
    rw [hfname]
    rw [show (90 : Nat) - n.length = (89 - n.length) + 1 from by omega,
      List.replicate_succ, List.append_assoc, List.cons_append]
    exact cstrUntilNul_append n _ (fun x hx hx0 => hnul (hx0 ▸ hx))
  · simp only [TarEngine.mk.injEq]
    exact ⟨by omega, trivial⟩


theorem c1_aux : ∀ (entries : List (List Nat × List Nat)) (e : TarEngine)
    (pre B : List Nat),
    pre.length = e.len →
    encodeEntriesFrom e entries = some B →
    (∀ p ∈ entries, 0 ∉ p.1) →
    (∀ p ∈ entries, ∀ bb ∈ p.2, bb < 256) →
    ∀ first, decodeEntriesSteps ⟨pre.length⟩ (pre ++ B) first entries.length =
      some entries
  | [], e, pre, B, hpre, henc, _, _, first => by
    simp only [encodeEntriesFrom] at henc
    injection henc with henc
    subst henc
    rfl
  | (n, dta) :: rest, e, pre, B, hpre, henc, hnul, hb, first => by
    simp only [encodeEntriesFrom] at henc
    rcases Option.bind_eq_some.mp henc with ⟨⟨ed, e2⟩, hemit, h1⟩
    simp only [] at h1
    rcases Option.bind_eq_some.mp h1 with ⟨B', htail, h2⟩
    injection h2 with h2
    subst h2
    obtain ⟨hpad, hdta, hTS, hFS, hTpfx, hTty, hTps, hFty, hFps, hcstr, he2⟩ :=
      c1_step e n dta ed e2 (hnul (n, dta) (List.mem_cons_self _ _)) hemit
    have hge := roundUp512_ge pre.length
    rw [← hpre] at hpad he2
    have hbl : ed.bytes.length = (roundUp512 pre.length - pre.length) + 1024 +
        (base64Encode dta).length := by
      simp only [EscapedData.bytes]
      rw [List.length_append, List.length_append, List.length_append, hpad,
        List.length_replicate, TarHeader.asBytes_length _ hTS,
        TarHeader.asBytes_length _ hFS, hdta]
      try omega
    have hlen : roundUp512 pre.length + 1024 ≤ (pre ++ (ed.bytes ++ B')).length := by
      rw [List.length_append, List.length_append, hbl]
      omega
    have hsplit1 : pre ++ (ed.bytes ++ B') = (pre ++ ed.padding) ++
        (ed.header.asBytes ++ (ed.file.asBytes ++ (ed.data ++ B'))) := by
      simp only [EscapedData.bytes, List.append_assoc]
    have hppl : (pre ++ ed.padding).length = roundUp512 pre.length := by
      rw [List.length_append, hpad, List.length_replicate]
      omega
    have hsl1 : ((pre ++ (ed.bytes ++ B')).drop (roundUp512 pre.length)).take 512 =
        ed.header.asBytes := by
      rw [hsplit1, drop_len_append _ _ _ hppl,
        take_len_append _ _ _ (TarHeader.asBytes_length _ hTS)]
    have hsl2 : (((pre ++ (ed.bytes ++ B')).drop (roundUp512 pre.length)).drop 512).take
        512 = ed.file.asBytes := by
      rw [hsplit1, drop_len_append _ _ _ hppl,
        drop_len_append _ _ _ (TarHeader.asBytes_length _ hTS),
        take_len_append _ _ _ (TarHeader.asBytes_length _ hFS)]
    have hsplit2 : pre ++ (ed.bytes ++ B') = ((pre ++ ed.padding) ++
        (ed.header.asBytes ++ ed.file.asBytes)) ++ (ed.data ++ B') := by
      simp only [EscapedData.bytes, List.append_assoc]
    have hsl3 : (pre ++ (ed.bytes ++ B')).drop (roundUp512 pre.length + 1024) =
        ed.data ++ B' := by
      rw [hsplit2, drop_len_append _ _ _ (by
        rw [List.length_append, hppl, List.length_append,
          TarHeader.asBytes_length _ hTS, TarHeader.asBytes_length _ hFS])]
    have hndh := next_double_header_entry pre.length (pre ++ (ed.bytes ++ B'))
      (base64Encode dta).length hlen
      (by rw [hsl1, TarHeader.ofBytes_asBytes _ hTS]; exact hTpfx)
      (by
        rw [hsl1, hsl2, TarHeader.ofBytes_asBytes _ hTS, TarHeader.ofBytes_asBytes _ hFS]
        intro hand
        have hTE := asBytes_inj ed.header TarHeader.EMPTY hTS EMPTY_Sized hand.1
        have hcf := congrArg TarHeader.typeflag hTE
        rw [hTty] at hcf
        exact absurd hcf (by decide))
      (by rw [hsl2, TarHeader.ofBytes_asBytes _ hFS]; exact hFps)
      (by rw [hsl1, TarHeader.ofBytes_asBytes _ hTS]; exact hTty)
      (by rw [hsl1, TarHeader.ofBytes_asBytes _ hTS]; exact hTps)
    rw [hsl2, TarHeader.ofBytes_asBytes _ hFS] at hndh
    have hne : TarDecompiler.next_escape ⟨pre.length⟩ (pre ++ (ed.bytes ++ B')) =
        some (.ok (.Entry ed.file (roundUp512 pre.length + 1024,
          roundUp512 pre.length + 1024 + (base64Encode dta).length),
          ⟨roundUp512 pre.length + 1024 + (base64Encode dta).length⟩)) := by
      simp only [TarDecompiler.next_escape]
      exact hndh
    have hce : TarDecompiler.continue_escape ⟨pre.length⟩ (pre ++ (ed.bytes ++ B')) =
        some (.ok (.Entry ed.file (roundUp512 pre.length + 1024,
          roundUp512 pre.length + 1024 + (base64Encode dta).length),
          ⟨roundUp512 pre.length + 1024 + (base64Encode dta).length⟩)) := by
      simp only [TarDecompiler.continue_escape]
      rw [hndh]
    have hstep : (if first = true then
        TarDecompiler.next_escape ⟨pre.length⟩ (pre ++ (ed.bytes ++ B'))
        else TarDecompiler.continue_escape ⟨pre.length⟩ (pre ++ (ed.bytes ++ B'))) =
        some (.ok (.Entry ed.file (roundUp512 pre.length + 1024,
          roundUp512 pre.length + 1024 + (base64Encode dta).length),
          ⟨roundUp512 pre.length + 1024 + (base64Encode dta).length⟩)) := by
      cases first
      · exact hce
      · exact hne
    have harg : ((pre ++ (ed.bytes ++ B')).drop (roundUp512 pre.length + 1024)).take
        (roundUp512 pre.length + 1024 + (base64Encode dta).length -
          (roundUp512 pre.length + 1024)) = base64Encode dta := by
      rw [show roundUp512 pre.length + 1024 + (base64Encode dta).length -
        (roundUp512 pre.length + 1024) = (base64Encode dta).length from by omega]
      rw [hsl3, show ed.data ++ B' = base64Encode dta ++ B' from by rw [hdta]]
      exact take_len_append _ _ _ rfl
    have hfd : TarDecompiler.file_data ed.file
        (((pre ++ (ed.bytes ++ B')).drop (roundUp512 pre.length + 1024)).take
          (roundUp512 pre.length + 1024 + (base64Encode dta).length -
            (roundUp512 pre.length + 1024))) = some (.Data dta) := by
      rw [harg]
      simp only [TarDecompiler.file_data]
      rw [hFty, if_neg (by decide), if_neg (by decide),
        base64_roundtrip dta (hb (n, dta) (List.mem_cons_self _ _))]
      rfl
    have hplen2 : (pre ++ ed.bytes).length = roundUp512 pre.length + 1024 +
        (base64Encode dta).length := by
      rw [List.length_append, hbl]
      omega
    have ih := c1_aux rest e2 (pre ++ ed.bytes) B'
      (by rw [hplen2, he2]) htail
      (fun p hp => hnul p (List.mem_cons_of_mem _ hp))
      (fun p hp => hb p (List.mem_cons_of_mem _ hp)) false
    rw [hplen2, List.append_assoc] at ih
    show decodeEntriesSteps ⟨pre.length⟩ (pre ++ (ed.bytes ++ B')) first
      ((n, dta) :: rest).length = some ((n, dta) :: rest)
    simp only [List.length_cons, decodeEntriesSteps]
    rw [hstep]
    simp only []
    rw [hcstr, hfd]
    simp only []
    rw [ih]
    rfl


/-- C1 (amended): the encode/decode round trip holds for entry sequences
whose names are valid `HtmlAttributeSafeName`s that are furthermore free
of NUL bytes, with payload bytes below 256: encoding each entry in order
with `escaped_base64` (default attributes) and decoding the produced byte
stream with the `next_escape`/`continue_escape` classification followed by
`file_data` on each `Entry` yields the same entries, in order, with the
same names and payloads.  NUL-freeness is a genuine strengthening of the
claim: the validator accepts names containing NUL (it is ASCII and not a
quote), but the decoder reads names back with
`CStr::from_bytes_until_nul`, so an interior NUL truncates the name on
the way back (see the counterexample); and names of 90 to 100 bytes make
the encoder panic before emitting anything (claim C10). -/
theorem c1_roundtrip (entries : List (List Nat × List Nat)) (B : List Nat)
    (hv : ∀ p ∈ entries, validAttributeName p.1 = true)
    (hnul : ∀ p ∈ entries, 0 ∉ p.1)
    (hbytes : ∀ p ∈ entries, ∀ bb ∈ p.2, bb < 256)
    (henc : encodeEntries entries = some B) :
    decodeEntriesSteps ⟨0⟩ B true entries.length = some entries := by
  have h := c1_aux entries ⟨0, false⟩ [] B rfl henc hnul hbytes true
  simpa using h

set_option maxRecDepth 10000 in
/-- C1 counterexample: the one-byte name `" "` is a valid
`HtmlAttributeSafeName` (ASCII, no quote), yet encode-then-decode returns
the entry with the empty name: the decoder's `CStr::from_bytes_until_nul`
stops at the first NUL of the 100-byte name field. -/
theorem c1_counterexample :
    validAttributeName [0] = true ∧
    (encodeEntries [([0], [])]).map
      (fun B => decodeEntriesSteps ⟨0⟩ B true 1) = some (some [([], [])]) := by
  constructor
  · decide
  · decide

set_option maxRecDepth 10000 in
theorem c1_roundtrip_witness :
    (encodeEntries [([97], [1, 2])]).map
      (fun B => decodeEntriesSteps ⟨0⟩ B true 1) = some (some [([97], [1, 2])]) := by
  rcases hB : encodeEntries [([97], [1, 2])] with _ | B
  · exact absurd hB (by decide)
  · have h := c1_roundtrip [([97], [1, 2])] B (by decide) (by decide) (by decide) hB
    simp only [List.length_cons, List.length_nil, Nat.zero_add] at h
    simp only [Option.map_some']
    rw [h]


end WasiDoc
